import Mathlib

/-!
Shallow embedding of the TrueType glyph-outline decoder from
`freetype/truetype/glyph.go` (package `truetype`).

Conventions of the embedding:
* Go machine integers are modelled as `Int`/`Nat` with explicit wrapping
  (`wrap16`, `wrap32`) at the operations where the source performs 16-bit
  or 32-bit two's-complement arithmetic.
* Byte tables (`glyf`, `loca`, the per-glyph slice) are `List Nat`.
* A Go runtime panic (out-of-range index or slice) is modelled as `none`.
* A Go function returning `error` is modelled as returning
  `Option (State × Option TTError)`: the outer `none` is a panic, an inner
  `some e` is a non-nil returned error, and the state component is the
  receiver `GlyphBuf` after the call's mutations (Go keeps mutations made
  before an error return).
-/

set_option linter.unusedVariables false

namespace truetype

/-- Two's-complement wrap of an integer into the signed 16-bit range. -/
def wrap16 (v : Int) : Int := (v + 32768) % 65536 - 32768

/-- Two's-complement wrap of an integer into the signed 32-bit range. -/
def wrap32 (v : Int) : Int := (v + 2147483648) % 4294967296 - 2147483648

/-- Value of a byte reinterpreted as a signed 8-bit integer (Go `int8(b)`). -/
def int8val (n : Nat) : Int := if n < 128 then (n : Int) else (n : Int) - 256

/-- Go `int32` addition (wrapping). -/
def i32add (a b : Int) : Int := wrap32 (a + b)

/-- Go `int32` multiplication (wrapping). -/
def i32mul (a b : Int) : Int := wrap32 (a * b)

/-- Go `v &^ 63` on a non-positive-overflowing `int32` value: clear the low
six bits of the two's-complement representation, i.e. round down to a
multiple of 64. -/
def andNot63 (v : Int) : Int := v - v % 64

/-- Big-endian 16-bit read `u16(b, i)` (from the font collaborator; the
source indexes `b[i]` and `b[i+1]`, panicking when out of range). -/
def u16 (b : List Nat) (i : Nat) : Option Nat :=
  match b.get? i, b.get? (i + 1) with
  | some hi, some lo => some (hi * 256 + lo)
  | _, _ => none

/-- Big-endian 32-bit read `u32(b, i)` (from the font collaborator). -/
def u32 (b : List Nat) (i : Nat) : Option Nat :=
  match b.get? i, b.get? (i + 1), b.get? (i + 2), b.get? (i + 3) with
  | some b0, some b1, some b2, some b3 =>
      some (((b0 * 256 + b1) * 256 + b2) * 256 + b3)
  | _, _, _, _ => none

/-- Go slice expression `b[g0:g1]`, panicking (`none`) unless
`g0 ≤ g1 ≤ len(b)`. -/
def sliceRange (b : List Nat) (g0 g1 : Nat) : Option (List Nat) :=
  if g0 ≤ g1 ∧ g1 ≤ b.length then some ((b.drop g0).take (g1 - g0)) else none

/-- A Point is a co-ordinate pair plus its decode flags (`Point` in the
source: `X, Y int32`, `Flags uint32`; the LSB of `Flags` is on-curve). -/
structure Point where
  X : Int
  Y : Int
  Flags : Nat
deriving DecidableEq, Repr

/-- The glyph's bounding box (`Bounds`, four `int32` fields). -/
structure Bounds where
  XMin : Int
  YMin : Int
  XMax : Int
  YMax : Int
deriving DecidableEq, Repr

/-- A GlyphBuf holds a glyph's contours (`GlyphBuf` in the source). -/
structure GlyphBuf where
  B : Bounds
  Point : List truetype.Point
  Unhinted : List truetype.Point
  InFontUnits : List truetype.Point
  Twilight : List truetype.Point
  End : List Nat
deriving DecidableEq, Repr

/-- Errors surfaced by the loader. `UnsupportedError s` models the source's
`UnsupportedError(s)`; `HintingError n` stands for an arbitrary error value
produced by the external hinting collaborator. -/
inductive TTError where
  | UnsupportedError (s : String)
  | HintingError (n : Nat)
deriving DecidableEq, Repr

/-- Modelled from the spec: the `loca` table's offset-width mode (16-bit
versus 32-bit entries), consumed from the font collaborator. Corresponds
to the source's `f.locaOffsetFormat == locaOffsetFormatShort` test. -/
inductive LocaFormat where
  | short
  | long
deriving DecidableEq, Repr

/-- Modelled from the spec: the font collaborator's interface as consumed
by the glyph loader — a byte-addressable `glyf` table, a `loca` table plus
its offset-width mode, and a fixed-point `scale(value) -> value` function
parameterized by the font's design-units-per-em. The `Font` type itself is
outside `src/`; only these four capabilities are used by the loader. -/
structure Font where
  locaOffsetFormat : LocaFormat
  loca : List Nat
  glyf : List Nat
  scale : Int → Int

/-- Modelled from the spec: the optional hinting collaborator. `init`
receives the buffer, font and scale once per `Load` and may fail; `run`
executes a glyph's instruction bytecode against the live point array,
which it may mutate. Per the spec, hinting mutates the final point
positions, not the contour structure, which the two closure properties
record. Both use the panic/error convention of the embedding. -/
structure Hinter where
  init : Font → Int → GlyphBuf → Option (GlyphBuf × Option TTError)
  run : List Nat → GlyphBuf → Option (GlyphBuf × Option TTError)
  init_shape : ∀ f s g g' e, init f s g = some (g', e) →
    g'.Point = g.Point ∧ g'.End = g.End
  run_shape : ∀ p g g' e, run p g = some (g', e) →
    g'.Point.length = g.Point.length ∧ g'.End = g.End

/-- The flag-byte write `g.Point[i].Flags = c`; `none` is the panic when
`i` is out of range. -/
def updFlags (pts : List Point) (i : Nat) (c : Nat) : Option (List Point) :=
  match pts.get? i with
  | some p => some (pts.set i { p with Flags := c })
  | none => none

/-- The inner repeat loop of `decodeFlags`: `for ; count > 0; count-- {
g.Point[i].Flags = c; i++ }`. The source performs no bound check here, so
an overrunning repeat count panics (`none`). -/
def repeatRun (pts : List Point) (i : Nat) (c : Nat) (count : Nat) :
    Option (List Point) :=
  match count with
  | 0 => some pts
  | k + 1 =>
    match updFlags pts i c with
    | some pts1 => repeatRun pts1 (i + 1) c k
    | none => none

theorem updFlags_length {pts : List Point} {i c : Nat} {pts' : List Point}
    (h : updFlags pts i c = some pts') : pts'.length = pts.length := by
  unfold updFlags at h
  cases hget : pts.get? i with
  | none => rw [hget] at h; cases h
  | some p => rw [hget] at h; cases h; simp

theorem repeatRun_length {c : Nat} : ∀ {count : Nat} {pts : List Point}
    {i : Nat} {pts' : List Point},
    repeatRun pts i c count = some pts' → pts'.length = pts.length := by
  intro count
  induction count with
  | zero => intro pts i pts' h; cases h; rfl
  | succ k ih =>
    intro pts i pts' h
    unfold repeatRun at h
    cases hupd : updFlags pts i c with
    | none => rw [hupd] at h; cases h
    | some pts1 =>
      rw [hupd] at h
      exact (ih h).trans (updFlags_length hupd)

/-- The loop body of `decodeFlags` (source lines 60–73): read a flag byte,
store it, and expand an optional run-length repeat. `flagRepeat = 8`. -/
def decodeFlagsAux (d : List Nat) (pts : List Point) (offset i : Nat) :
    Option (List Point × Nat) :=
  if _hi : i < pts.length then
    match d.get? offset with
    | none => none
    | some c =>
      match hp : updFlags pts i c with
      | none => none
      | some pts1 =>
        if c &&& 8 ≠ 0 then
          match d.get? (offset + 1) with
          | none => none
          | some count =>
            match hr : repeatRun pts1 (i + 1) c count with
            | none => none
            | some pts2 => decodeFlagsAux d pts2 (offset + 2) (i + 1 + count)
        else
          decodeFlagsAux d pts1 (offset + 1) (i + 1)
  else
    some (pts, offset)
termination_by pts.length - i
decreasing_by
  · have h1 := updFlags_length hp
    have h2 := repeatRun_length hr
    simp at h2
    omega
  · have h1 := updFlags_length hp
    omega

/-- `decodeFlags` decodes a glyph's run-length encoded flags and returns
the remaining data offset (source lines 59–75). Note the source signature
has no error return; the only failure mode is a panic. -/
def decodeFlags (g : GlyphBuf) (d : List Nat) (offset np0 : Nat) :
    Option (GlyphBuf × Nat) :=
  match decodeFlagsAux d g.Point offset np0 with
  | none => none
  | some (pts, off) => some ({ g with Point := pts }, off)

/-- One axis pass of `decodeCoords` (source lines 79–95 for X, 96–112 for
Y; the two loops are textually identical up to the flag bits tested and
the field written, which are the parameters `shortBit`, `sameBit`, `wr`).
The running accumulator is Go `int16` arithmetic, wrapped by `wrap16`, and
each point's stored co-ordinate is the accumulator widened to `int32`. -/
def decodeAxisAux (d : List Nat) (shortBit sameBit : Nat)
    (wr : Point → Int → Point) (pts : List Point) (offset i : Nat)
    (x : Int) : Option (List Point × Nat) :=
  if _hi : i < pts.length then
    match pts.get? i with
    | none => none
    | some p =>
      if p.Flags &&& shortBit ≠ 0 then
        match d.get? offset with
        | none => none
        | some b =>
          let x1 := if p.Flags &&& sameBit = 0 then wrap16 (x - b)
                    else wrap16 (x + b)
          decodeAxisAux d shortBit sameBit wr (pts.set i (wr p x1))
            (offset + 1) (i + 1) x1
      else if p.Flags &&& sameBit = 0 then
        match u16 d offset with
        | none => none
        | some v =>
          let x1 := wrap16 (x + wrap16 v)
          decodeAxisAux d shortBit sameBit wr (pts.set i (wr p x1))
            (offset + 2) (i + 1) x1
      else
        decodeAxisAux d shortBit sameBit wr (pts.set i (wr p x)) offset
          (i + 1) x
  else
    some (pts, offset)
termination_by pts.length - i
decreasing_by all_goals (simp; omega)

/-- `decodeCoords` decodes a glyph's delta encoded co-ordinates (source
lines 78–114): a full X pass over `[np0, len)` followed by a full Y pass,
each starting its accumulator at zero. `flagXShortVector = 2`,
`flagPositiveXShortVector = flagThisXIsSame = 16`, `flagYShortVector = 4`,
`flagPositiveYShortVector = flagThisYIsSame = 32`. -/
def decodeCoords (g : GlyphBuf) (d : List Nat) (offset np0 : Nat) :
    Option (GlyphBuf × Nat) :=
  match decodeAxisAux d 2 16 (fun p v => { p with X := v }) g.Point offset
      np0 0 with
  | none => none
  | some (pts1, off1) =>
    match decodeAxisAux d 4 32 (fun p v => { p with Y := v }) pts1 off1
        np0 0 with
    | none => none
    | some (pts2, off2) => some ({ g with Point := pts2 }, off2)

/-- The contour-end loop of `load` (source lines 234–237): read one
big-endian end index per contour, storing `1 + np0 + value`, advancing the
offset by two per entry. -/
def readEnds (glyf : List Nat) (offset np0 : Nat) : Nat → Option (List Nat × Nat)
  | 0 => some ([], offset)
  | k + 1 =>
    match u16 glyf offset with
    | none => none
    | some v =>
      match readEnds glyf (offset + 2) np0 k with
      | none => none
      | some (rest, off) => some ((1 + np0 + v) :: rest, off)

/-- The hinting delta-adjust loop of `load` (source lines 260–263): add
`(dx, dy)` to the entries of `InFontUnits` at indices `[i, stop)`. -/
def translateRange (l : List Point) (dx dy : Int) (i stop : Nat) :
    Option (List Point) :=
  if _hi : i < stop then
    match l.get? i with
    | none => none
    | some p =>
      translateRange (l.set i { p with X := i32add p.X dx, Y := i32add p.Y dy })
        dx dy (i + 1) stop
  else
    some l
termination_by stop - i
decreasing_by simp; omega

/-- The scaling loops of `load` (source lines 265–277), applied to the
points at indices `[np0, len)`: grid-rounded (`roundDxDy`) scales and
rounds the offset to a whole 26.6 pixel first, unrounded scales the
translated raw co-ordinate directly. -/
def scalePoints (f : Font) (scale dx dy : Int) (roundDxDy : Bool)
    (np0 : Nat) (pts : List Point) : List Point :=
  if roundDxDy then
    let rdx := andNot63 (i32add (f.scale (i32mul scale dx)) 32)
    let rdy := andNot63 (i32add (f.scale (i32mul scale dy)) 32)
    pts.take np0 ++ (pts.drop np0).map (fun p =>
      { p with X := i32add rdx (f.scale (i32mul scale p.X)),
               Y := i32add rdy (f.scale (i32mul scale p.Y)) })
  else
    pts.take np0 ++ (pts.drop np0).map (fun p =>
      { p with X := f.scale (i32mul scale (i32add p.X dx)),
               Y := f.scale (i32mul scale (i32add p.Y dy)) })

/-- The `loca` lookup of `load` (source lines 201–208): the byte range
`[g0, g1)` of glyph `i` in the `glyf` table, per the offset format. -/
def locaRange (f : Font) (i : Nat) : Option (Nat × Nat) :=
  match f.locaOffsetFormat with
  | .short =>
    match u16 f.loca (2 * i), u16 f.loca (2 * i + 2) with
    | some a, some b => some (2 * a, 2 * b)
    | _, _ => none
  | .long =>
    match u32 f.loca (4 * i), u32 f.loca (4 * i + 4) with
    | some a, some b => some (a, b)
    | _, _ => none

/-- The component-offset arguments of a compound record (source lines
166–174): 16-bit signed words when `flagArg1And2AreWords` (bit 1) is set,
signed bytes otherwise. -/
def compoundArgs (glyf : List Nat) (offset : Nat) (flags : Nat) :
    Option (Int × Int) :=
  if flags &&& 1 ≠ 0 then
    match u16 glyf (offset + 4), u16 glyf (offset + 6) with
    | some a, some b => some (wrap16 a, wrap16 b)
    | _, _ => none
  else
    match glyf.get? (offset + 4), glyf.get? (offset + 5) with
    | some a, some b => some (int8val a, int8val b)
    | _, _ => none

/-- Byte size of a compound component record (source: offset advances by 8
for word arguments, 6 for byte arguments). -/
def compoundArgsSize (flags : Nat) : Nat := if flags &&& 1 ≠ 0 then 8 else 6

theorem u16_bound {b : List Nat} {i v : Nat} (h : u16 b i = some v) :
    i + 1 < b.length := by
  by_contra hc
  push_neg at hc
  have hn : b.get? (i + 1) = none := List.get?_eq_none.mpr hc
  unfold u16 at h
  rw [hn] at h
  cases b.get? i <;> simp at h

theorem compoundArgsSize_ge (flags : Nat) : 6 ≤ compoundArgsSize flags := by
  unfold compoundArgsSize
  split <;> omega

/-- The reads of one compound component record (source lines 163–174):
flag word, component glyph index, and the translated offsets
`dx1 = dx + arg1`, `dy1 = dy + arg2`. -/
def parseComponent (glyf : List Nat) (offset : Nat) (dx dy : Int) :
    Option (Nat × Nat × Int × Int) :=
  match u16 glyf offset, u16 glyf (offset + 2) with
  | some flags, some component =>
    match compoundArgs glyf offset flags with
    | some (ax, ay) => some (flags, component, i32add dx ax, i32add dy ay)
    | none => none
  | _, _ => none

theorem parseComponent_bound {glyf : List Nat} {offset : Nat} {dx dy : Int}
    {r : Nat × Nat × Int × Int}
    (h : parseComponent glyf offset dx dy = some r) :
    offset + 1 < glyf.length := by
  unfold parseComponent at h
  cases h1 : u16 glyf offset with
  | none => rw [h1] at h; simp at h
  | some flags =>
    exact u16_bound h1

/-- The three-way branch on the signed stored contour count `ne` (source
lines 220–226): `-1` dispatches to the compound loader, other negative
values are reserved, and a non-negative count selects the simple branch. -/
inductive ContourCount where
  | compound
  | reserved
  | simpleCount (n : Nat)
deriving DecidableEq, Repr

/-- Classify `ne := int(int16(u16(glyf, 0)))` per source lines 220–226. -/
def contourClass (neRaw : Nat) : ContourCount :=
  if wrap16 neRaw = -1 then .compound
  else if wrap16 neRaw < 0 then .reserved
  else .simpleCount (wrap16 neRaw).toNat

/-- The glyph-header read of `load` (source lines 214–218): the stored
contour count (raw, still unsigned) and the four bounding-box extrema,
each a signed 16-bit big-endian value. -/
def readGlyfHeader (glyf : List Nat) : Option (Nat × Bounds) :=
  match u16 glyf 0, u16 glyf 2, u16 glyf 4, u16 glyf 6, u16 glyf 8 with
  | some ne, some a, some b, some c, some d =>
      some (ne, ⟨wrap16 a, wrap16 b, wrap16 c, wrap16 d⟩)
  | _, _, _, _, _ => none

/-- The non-recursive prelude of `load` (source lines 200–226): look up
the glyph's byte range, slice it out of `glyf`, read the header and
classify the contour count. Factored out so the recursive `load` is a
single flat dispatch. -/
inductive LoadDispatch where
  | panic
  | empty
  | compound (glyf : List Nat) (bb : Bounds)
  | reserved (bb : Bounds)
  | simple (glyf : List Nat) (bb : Bounds) (ne : Nat)
deriving DecidableEq, Repr

/-- Compute the dispatch of `load` for glyph index `i` (source lines
200–226; `panic` is any out-of-range read, `empty` is `g0 == g1`). -/
def loadDispatch (f : Font) (i : Nat) : LoadDispatch :=
  match locaRange f i with
  | none => .panic
  | some (g0, g1) =>
    if g0 = g1 then .empty
    else
      match sliceRange f.glyf g0 g1 with
      | none => .panic
      | some glyf =>
        match readGlyfHeader glyf with
        | none => .panic
        | some (neRaw, bb) =>
          match contourClass neRaw with
          | .compound => .compound glyf bb
          | .reserved => .reserved bb
          | .simpleCount ne => .simple glyf bb ne

/-- The non-recursive prelude of one `loadCompound` iteration (source
lines 163–180): parse the record and check the flag preconditions. -/
inductive CompDispatch where
  | panic
  | badTransform
  | badScale
  | comp (flags component : Nat) (dx1 dy1 : Int)
deriving DecidableEq, Repr

/-- Compute the dispatch of one compound-component record (source lines
163–180): `badTransform` when `flagArgsAreXYValues` (bit 2) is clear,
`badScale` when any of the scale/transform flags (`8 + 64 + 128 = 200`)
is set. -/
def compDispatch (glyf : List Nat) (offset : Nat) (dx dy : Int) :
    CompDispatch :=
  match parseComponent glyf offset dx dy with
  | none => .panic
  | some (flags, component, dx1, dy1) =>
    if flags &&& 2 = 0 then .badTransform
    else if flags &&& 200 ≠ 0 then .badScale
    else .comp flags component dx1 dy1

theorem compDispatch_bound {glyf : List Nat} {offset : Nat} {dx dy : Int}
    {flags component : Nat} {dx1 dy1 : Int}
    (h : compDispatch glyf offset dx dy = .comp flags component dx1 dy1) :
    offset + 1 < glyf.length := by
  unfold compDispatch at h
  cases hp : parseComponent glyf offset dx dy with
  | none => rw [hp] at h; cases h
  | some r => exact parseComponent_bound hp

/-- The simple-glyph branch of `load` (source lines 227–285, factored out
of the recursion because it makes no recursive call): append the contour
end indices, slice out the hinting program, decode flags and co-ordinates
for the new point range, then delta-adjust, scale and hint. `ne` is the
(non-negative) stored contour count. -/
def loadSimple (f : Font) (scale : Int) (h : Option Hinter)
    (glyf : List Nat) (dx dy : Int) (roundDxDy : Bool) (ne : Nat)
    (g : GlyphBuf) : Option (GlyphBuf × Option TTError) :=
  let np0 := g.Point.length
  match readEnds glyf 10 np0 ne with
  | none => none
  | some (ends, offset1) =>
    -- The source grows g.End in place when capacity allows, reallocating
    -- without a copy otherwise; entries below ne0 are preserved here, as
    -- they are whenever the reused buffer's capacity suffices. Only the
    -- entries at [ne0, ne) are ever written or read afterwards.
    let end1 := g.End ++ ends
    match u16 glyf offset1 with
    | none => none
    | some instrLen =>
      match sliceRange glyf (offset1 + 2) (offset1 + 2 + instrLen) with
      | none => none
      | some program =>
        let offset3 := offset1 + 2 + instrLen
        -- np := int(g.End[ne-1]); panics when End is empty.
        match end1.getLast? with
        | none => none
        | some np =>
          -- Resize g.Point to np points; the source's slice reuse can
          -- expose stale points beyond the old length, but every field of
          -- every point in [np0, np) is overwritten by the two decoders,
          -- so zero-filled padding is observationally identical.
          let pts0 := g.Point.take np ++
            List.replicate (np - g.Point.length) ⟨0, 0, 0⟩
          match decodeFlags { g with Point := pts0, End := end1 } glyf
              offset3 np0 with
          | none => none
          | some (g2, offset4) =>
            match decodeCoords g2 glyf offset4 np0 with
            | none => none
            | some (g3, _off5) =>
              match h with
              | none =>
                some ({ g3 with
                  Point := scalePoints f scale dx dy roundDxDy np0 g3.Point },
                  none)
              | some hh =>
                -- lines 258–264: snapshot and translate InFontUnits
                if np0 ≤ np then
                  match translateRange (g3.InFontUnits ++ g3.Point.drop np0)
                      dx dy np0 np with
                  | none => none
                  | some ifu2 =>
                    let g5 := { g3 with
                      InFontUnits := ifu2,
                      Point := scalePoints f scale dx dy roundDxDy np0 g3.Point }
                    -- lines 278–283: snapshot Unhinted, run the hinter
                    hh.run program
                      { g5 with Unhinted := g5.Unhinted ++ g5.Point.drop np0 }
                else none

mutual

/-- `load` appends a glyph's contours to the GlyphBuf (source lines
194–286). The source counts recursion upward from 0 and rejects
`recursion >= 4`; the embedding counts the remaining depth downward
(`depthLeft = 4 - recursion`, so the top-level call passes 4) and rejects
at 0 — the same test, reparameterized so the recursion is visibly
bounded. -/
def load (f : Font) (scale : Int) (i : Nat) (h : Option Hinter)
    (dx dy : Int) (roundDxDy : Bool) (depthLeft : Nat) (g : GlyphBuf) :
    Option (GlyphBuf × Option TTError) :=
  match depthLeft with
  | 0 => some (g, some (.UnsupportedError "excessive compound glyph recursion"))
  | m + 1 =>
    match loadDispatch f i with
    | .panic => none
    | .empty => some (g, none)
    | .compound glyf bb =>
      loadCompound f scale h glyf 10 dx dy m { g with B := bb }
    | .reserved bb =>
      some ({ g with B := bb },
        some (.UnsupportedError "negative number of contours"))
    | .simple glyf bb ne =>
      loadSimple f scale h glyf dx dy roundDxDy ne { g with B := bb }
termination_by (depthLeft, 0, 0)

/-- `loadCompound` loads a glyph composed of other glyphs (source lines
144–191). Compound flags: `flagArg1And2AreWords = 1`,
`flagArgsAreXYValues = 2`, `flagRoundXYToGrid = 4`, and the three
scale/transform flags sum to `8 + 64 + 128 = 200`; `flagMoreComponents =
32`, `flagUseMyMetrics = 512`. `depthLeft` is the remaining depth for the
component loads (the source's `recursion + 1`, counted downward). The
recursive `g.load(...)` call's error result is discarded, exactly as in
the source. -/
def loadCompound (f : Font) (scale : Int) (h : Option Hinter)
    (glyf : List Nat) (offset : Nat) (dx dy : Int) (depthLeft : Nat)
    (g : GlyphBuf) : Option (GlyphBuf × Option TTError) :=
  match h1 : compDispatch glyf offset dx dy with
  | .panic => none
  | .badTransform =>
    some (g, some (.UnsupportedError "compound glyph transform vector"))
  | .badScale =>
    some (g, some (.UnsupportedError "compound glyph scale/transform"))
  | .comp flags component dx1 dy1 =>
    let b0 := g.B
    match load f scale component h dx1 dy1 (flags &&& 4 ≠ 0)
        depthLeft g with
    | none => none
    | some (g1, _discardedErr) =>
      let g2 := if flags &&& 512 = 0 then { g1 with B := b0 } else g1
      if flags &&& 32 = 0 then
        some (g2, none)
      else
        loadCompound f scale h glyf (offset + compoundArgsSize flags)
          dx dy depthLeft g2
termination_by (depthLeft, 1, glyf.length - offset)
decreasing_by
  · exact Prod.Lex.right _ (Prod.Lex.left _ _ (by omega))
  · have hb := compDispatch_bound h1
    have hs := compoundArgsSize_ge flags
    exact Prod.Lex.right _ (Prod.Lex.right _ (by omega))

end

/-- The tail of `Load` after hinter initialization (source lines 133–140):
run the recursive load at recursion level 0 (remaining depth 4) and, on
success, scale the four bounding-box extrema. -/
def loadAndScaleB (f : Font) (scale : Int) (i : Nat) (h : Option Hinter)
    (g : GlyphBuf) : Option (GlyphBuf × Option TTError) :=
  match load f scale i h 0 0 false 4 g with
  | none => none
  | some (g2, some e) => some (g2, some e)
  | some (g2, none) =>
    some ({ g2 with B :=
      ⟨f.scale (i32mul scale g2.B.XMin), f.scale (i32mul scale g2.B.YMin),
       f.scale (i32mul scale g2.B.XMax), f.scale (i32mul scale g2.B.YMax)⟩ },
     none)

/-- `Load` loads a glyph's contours from a Font, overwriting any
previously loaded contours (source lines 120–141): reset the buffer,
initialize the optional hinter, run the recursive load at recursion
level 0 (remaining depth 4), then scale the bounding box. -/
def Load (f : Font) (scale : Int) (i : Nat) (h : Option Hinter)
    (g : GlyphBuf) : Option (GlyphBuf × Option TTError) :=
  let gr : GlyphBuf := { g with
    B := ⟨0, 0, 0, 0⟩, Point := [], Unhinted := [], InFontUnits := [],
    Twilight := [], End := [] }
  match h with
  | none => loadAndScaleB f scale i none gr
  | some hh =>
    match hh.init f scale gr with
    | none => none
    | some (g1, some e) => some (g1, some e)
    | some (g1, none) => loadAndScaleB f scale i h g1

/-! ### Specification-side definitions

These follow the wording of the specification (not the source); the
refinement theorems below compare the source-derived decoders and scalers
against them. -/

/-- Spec §4.2, one full axis pass written from the spec's words: for each
flag in the range, a short vector consumes one byte whose magnitude is
added or subtracted per the sign bit; the is-same case consumes nothing
and keeps the accumulator; otherwise a signed 16-bit big-endian delta
(two bytes) is added. The accumulator is 16-bit wrapping arithmetic and
each emitted co-ordinate is the accumulator widened to the output type. -/
def specAxisDecode (d : List Nat) (shortBit sameBit : Nat) (offset : Nat)
    (x : Int) : List Nat → Option (List Int × Nat)
  | [] => some ([], offset)
  | fl :: rest =>
    if fl &&& shortBit ≠ 0 then
      match d.get? offset with
      | none => none
      | some b =>
        let x1 := if fl &&& sameBit = 0 then wrap16 (x - b) else wrap16 (x + b)
        match specAxisDecode d shortBit sameBit (offset + 1) x1 rest with
        | none => none
        | some (xs, off) => some (x1 :: xs, off)
    else if fl &&& sameBit = 0 then
      match u16 d offset with
      | none => none
      | some v =>
        let x1 := wrap16 (x + wrap16 v)
        match specAxisDecode d shortBit sameBit (offset + 2) x1 rest with
        | none => none
        | some (xs, off) => some (x1 :: xs, off)
    else
      match specAxisDecode d shortBit sameBit offset x rest with
      | none => none
      | some (xs, off) => some (x :: xs, off)

/-- Spec §4.5, unrounded policy: `scaled = scaleFn(requestedSize *
(rawCoordinate + offset))`. -/
def specScaleUnrounded (scaleFn : Int → Int) (scale offset raw : Int) : Int :=
  scaleFn (i32mul scale (i32add raw offset))

/-- Spec §4.5, the grid-rounded offset: `rounded = (scaledOffset + 32) &
~63`. -/
def specRoundedOffset (scaleFn : Int → Int) (scale offset : Int) : Int :=
  andNot63 (i32add (scaleFn (i32mul scale offset)) 32)

/-- Spec §4.5, grid-rounded policy: the rounded offset plus the
independently scaled raw co-ordinate. -/
def specScaleRounded (scaleFn : Int → Int) (scale offset raw : Int) : Int :=
  i32add (specRoundedOffset scaleFn scale offset) (scaleFn (i32mul scale raw))

/-- The spec's `End` strict-increase claim, stated over the entry list. -/
def strictlyIncreasing (l : List Nat) : Prop := l.Chain' (· < ·)

instance : DecidablePred strictlyIncreasing := fun l =>
  inferInstanceAs (Decidable (l.Chain' (· < ·)))

/-- The contour-structure invariant of a `GlyphBuf` that survives on all
inputs: when `End` is empty there are no points, and otherwise its last
entry equals the point count. -/
def EndInv (g : GlyphBuf) : Prop :=
  (g.End = [] → g.Point = []) ∧
  (g.End ≠ [] → g.End.getLast? = some g.Point.length)

/-! ### Concrete fonts used as test inputs -/

/-- A freshly reset glyph buffer. -/
def emptyBuf : GlyphBuf := ⟨⟨0, 0, 0, 0⟩, [], [], [], [], []⟩

/-- A compound glyph whose single component is glyph 0 — itself: header
`ne = -1`, zero bounds, one record with `flagArgsAreXYValues` set, byte
arguments `(0, 0)`, no further components. -/
def selfRefGlyf : List Nat := [255, 255, 0, 0, 0, 0, 0, 0, 0, 0, 0, 2, 0, 0, 0, 0]

/-- A font whose glyph 0 is the self-referential compound glyph: loading
it recurses to the depth cap. -/
def selfRefFont : Font := ⟨.long, [0, 0, 0, 0, 0, 0, 0, 16], selfRefGlyf, id⟩

/-- A compound glyph with a single component, glyph `k`. -/
def chainComp (k : Nat) : List Nat :=
  [255, 255, 0, 0, 0, 0, 0, 0, 0, 0, 0, 2, 0, k, 0, 0]

/-- A simple glyph: one contour, one on-curve point at `(5, 7)` encoded as
positive short vectors, bounds `(0,0)–(10,10)`, no instructions. -/
def chainSimple : List Nat :=
  [0, 1, 0, 0, 0, 0, 0, 10, 0, 10, 0, 0, 0, 0, 55, 5, 7]

/-- A font with a four-deep component chain: glyph 0 → 1 → 2 → 3, where
glyph 3 is the simple glyph. Loading glyph 0 nests exactly four `load`
invocations. -/
def chainFont : Font :=
  ⟨.long,
   [0, 0, 0, 0, 0, 0, 0, 16, 0, 0, 0, 32, 0, 0, 0, 48, 0, 0, 0, 65],
   chainComp 1 ++ chainComp 2 ++ chainComp 3 ++ chainSimple, id⟩

/-- A simple glyph whose two stored contour end indices are both 3, so the
decoded `End` becomes `[4, 4]`: four points, all flagged on-curve with
repeat (`0x39 = 57`, count 3) and both is-same bits, consuming no
co-ordinate bytes. -/
def twinEndsGlyf : List Nat :=
  [0, 2, 0, 0, 0, 0, 0, 0, 0, 0, 0, 3, 0, 3, 0, 0, 57, 3]

/-- A font whose glyph 0 is the twin-ends simple glyph; `Load` accepts it
although its `End` list is not strictly increasing. -/
def twinEndsFont : Font := ⟨.short, [0, 0, 0, 9], twinEndsGlyf, id⟩

/-- A font whose glyph 0 has a zero-length `loca` range (`g0 = g1 = 0`). -/
def zeroLocaFont : Font := ⟨.short, [0, 0, 0, 0], [], id⟩

/-- The buffer produced by loading glyph 0 of `chainFont`. -/
def loadedChainBuf : GlyphBuf := ⟨⟨0, 0, 0, 0⟩, [⟨5, 7, 55⟩], [], [], [], [1]⟩

/-- The buffer produced by loading glyph 0 of `twinEndsFont`: four points at
the origin, all flagged `0x39`, and the non-strictly-increasing contour end
list `[4, 4]`. -/
def twinBuf : GlyphBuf :=
  ⟨⟨0, 0, 0, 0⟩, [⟨0, 0, 57⟩, ⟨0, 0, 57⟩, ⟨0, 0, 57⟩, ⟨0, 0, 57⟩], [], [],
   [], [4, 4]⟩

/-! ### General lemmas about the loaders -/

/-- At a recursion counter that has reached the cap (remaining depth 0),
`load` rejects immediately with the unsupported-format error, leaving the
buffer untouched (source lines 197–199). -/
theorem load_depth_zero (f : Font) (scale : Int) (i : Nat)
    (h : Option Hinter) (dx dy : Int) (r : Bool) (g : GlyphBuf) :
    load f scale i h dx dy r 0 g =
      some (g, some (.UnsupportedError "excessive compound glyph recursion")) := by
  rw [load.eq_def]

theorem loadDispatch_empty {f : Font} {i v : Nat}
    (h : locaRange f i = some (v, v)) : loadDispatch f i = .empty := by
  unfold loadDispatch
  rw [h]
  simp

/-! ### Claim C2 -/

/-- C2: the claim says `decodeFlags` returns a malformed-input error when
a repeat count would overrun the point range. The source's `decodeFlags`
has no error result at all: the overrunning write panics (out-of-range
index, modelled as `none`). This theorem evaluates the decoder at the
failing input: two points, flag byte `8` (repeat bit) with repeat count 2,
which needs three points. -/
theorem C2_decodeFlags_overrun_panics :
    decodeFlags ⟨⟨0, 0, 0, 0⟩, [⟨0, 0, 0⟩, ⟨0, 0, 0⟩], [], [], [], []⟩
      [8, 2] 0 0 = none := by
  simp [decodeFlags, decodeFlagsAux, updFlags, repeatRun, List.get?]

/-! ### Claim C9 -/

/-- C9: for a glyph index whose `loca` entry has zero length (`g0 = g1`),
`Load` succeeds (`none` error) and the resulting buffer has empty `Point`
and `End`; the bounding box is the zero box passed through the scaler. -/
theorem C9_zero_length_loca (f : Font) (scale : Int) (i : Nat)
    (g : GlyphBuf) (v : Nat) (hloca : locaRange f i = some (v, v)) :
    Load f scale i none g =
      some ({ g with
        B := ⟨f.scale (i32mul scale 0), f.scale (i32mul scale 0),
              f.scale (i32mul scale 0), f.scale (i32mul scale 0)⟩,
        Point := [], Unhinted := [], InFontUnits := [], Twilight := [],
        End := [] }, none) := by
  have hd := loadDispatch_empty hloca
  unfold Load loadAndScaleB
  simp only [load.eq_def, hd]

/-- Witness for C9 at a concrete font: glyph 0 of `zeroLocaFont` has
`g0 = g1 = 0`, and `Load` succeeds with empty contours. -/
theorem C9_witness :
    locaRange zeroLocaFont 0 = some (0, 0) ∧
    Load zeroLocaFont 1 0 none emptyBuf =
      some ({ emptyBuf with
        B := ⟨zeroLocaFont.scale (i32mul 1 0), zeroLocaFont.scale (i32mul 1 0),
              zeroLocaFont.scale (i32mul 1 0), zeroLocaFont.scale (i32mul 1 0)⟩,
        Point := [], Unhinted := [], InFontUnits := [], Twilight := [],
        End := [] }, none) :=
  ⟨by decide, C9_zero_length_loca zeroLocaFont 1 0 emptyBuf 0 (by decide)⟩

/-! ### Claim C8 -/

theorem repeatRun_fit :
    ∀ (count : Nat) (pts : List Point) (i c : Nat), i + count ≤ pts.length →
    ∃ pts', repeatRun pts i c count = some pts' ∧
      (∀ j, i ≤ j → j < i + count →
        pts'.get? j = (pts.get? j).map (fun p => { p with Flags := c })) ∧
      (∀ j, j < i ∨ i + count ≤ j → pts'.get? j = pts.get? j) := by
  intro count
  induction count with
  | zero =>
    intro pts i c hle
    refine ⟨pts, rfl, ?_, ?_⟩
    · intro j h1 h2
      omega
    · intro j hj
      rfl
  | succ k ih =>
    intro pts i c hle
    have hi : i < pts.length := by omega
    obtain ⟨p, hp⟩ : ∃ p, pts.get? i = some p := by
      cases hg : pts.get? i with
      | none => exact absurd (List.get?_eq_none.mp hg) (by omega)
      | some q => exact ⟨q, rfl⟩
    have hupd : updFlags pts i c = some (pts.set i { p with Flags := c }) := by
      unfold updFlags
      rw [hp]
    have hlen : (i + 1) + k ≤ (pts.set i { p with Flags := c }).length := by
      simp
      omega
    obtain ⟨pts', hrr, hin, hout⟩ := ih (pts.set i { p with Flags := c }) (i + 1) c hlen
    refine ⟨pts', ?_, ?_, ?_⟩
    · unfold repeatRun
      rw [hupd]
      exact hrr
    · intro j h1 h2
      rcases Nat.eq_or_lt_of_le h1 with he | hlt
      · subst he
        rw [hout i (Or.inl (by omega)), List.get?_set_eq_of_lt _ hi, hp]
        rfl
      · rw [hin j (by omega) (by omega), List.get?_set_ne _ _ (by omega)]
    · intro j hj
      rcases hj with hj | hj
      · rw [hout j (Or.inl (by omega)), List.get?_set_ne _ _ (by omega)]
      · rw [hout j (Or.inr (by omega)), List.get?_set_ne _ _ (by omega)]

/-- C8: in flag decoding, a flag byte `c` with the repeat bit (8) set,
followed by a repeat-count byte `k`, assigns the flag value `c` to exactly
`k + 1` consecutive points — the flag byte's own point `i` plus `k`
further points — consumes exactly two bytes (decoding continues at
`offset + 2`), and resumes at point `i + 1 + k`. -/
theorem C8_repeat_expansion (d : List Nat) (pts : List Point)
    (offset i c k : Nat) (hc : d.get? offset = some c) (hrep : c &&& 8 ≠ 0)
    (hk : d.get? (offset + 1) = some k) (hfit : i + 1 + k ≤ pts.length) :
    ∃ pts2,
      decodeFlagsAux d pts offset i =
        decodeFlagsAux d pts2 (offset + 2) (i + 1 + k) ∧
      (∀ j, i ≤ j → j < i + 1 + k →
        pts2.get? j = (pts.get? j).map (fun p => { p with Flags := c })) ∧
      (∀ j, j < i ∨ i + 1 + k ≤ j → pts2.get? j = pts.get? j) := by
  have hi : i < pts.length := by omega
  obtain ⟨p, hp⟩ : ∃ p, pts.get? i = some p := by
    cases hg : pts.get? i with
    | none => exact absurd (List.get?_eq_none.mp hg) (by omega)
    | some q => exact ⟨q, rfl⟩
  have hupd : updFlags pts i c = some (pts.set i { p with Flags := c }) := by
    unfold updFlags
    rw [hp]
  have hlen : (i + 1) + k ≤ (pts.set i { p with Flags := c }).length := by
    simp
    omega
  obtain ⟨pts2, hrr, hin, hout⟩ := repeatRun_fit k _ (i + 1) c hlen
  refine ⟨pts2, ?_, ?_, ?_⟩
  · conv_lhs => rw [decodeFlagsAux.eq_def]
    simp only [dif_pos hi, hc, if_pos hrep, hk]
    split
    · next heq =>
        rw [hupd] at heq
        cases heq
    · next pts1 heq =>
        rw [hupd] at heq
        cases heq
        split
        · next heq2 =>
            rw [hrr] at heq2
            cases heq2
        · next pts2x heq2 =>
            rw [hrr] at heq2
            cases heq2
            rfl
  · intro j h1 h2
    rcases Nat.eq_or_lt_of_le h1 with he | hlt
    · subst he
      rw [hout i (Or.inl (by omega)), List.get?_set_eq_of_lt _ hi, hp]
      rfl
    · rw [hin j (by omega) (by omega), List.get?_set_ne _ _ (by omega)]
  · intro j hj
    rcases hj with hj | hj
    · rw [hout j (Or.inl (by omega)), List.get?_set_ne _ _ (by omega)]
    · rw [hout j (Or.inr (by omega)), List.get?_set_ne _ _ (by omega)]

/-- Witness for C8: flag byte 9 (on-curve and repeat) with count 2 over a
three-point range. -/
theorem C8_witness :
    (([9, 2] : List Nat).get? 0 = some 9 ∧ (9 : Nat) &&& 8 ≠ 0 ∧
      ([9, 2] : List Nat).get? (0 + 1) = some 2 ∧
      0 + 1 + 2 ≤ ([⟨0, 0, 0⟩, ⟨0, 0, 0⟩, ⟨0, 0, 0⟩] : List Point).length) ∧
    ∃ pts2,
      decodeFlagsAux [9, 2] [⟨0, 0, 0⟩, ⟨0, 0, 0⟩, ⟨0, 0, 0⟩] 0 0 =
        decodeFlagsAux [9, 2] pts2 (0 + 2) (0 + 1 + 2) ∧
      (∀ j, 0 ≤ j → j < 0 + 1 + 2 →
        pts2.get? j = (([⟨0, 0, 0⟩, ⟨0, 0, 0⟩, ⟨0, 0, 0⟩] : List Point).get? j).map
          (fun p => { p with Flags := 9 })) ∧
      (∀ j, j < 0 ∨ 0 + 1 + 2 ≤ j →
        pts2.get? j = ([⟨0, 0, 0⟩, ⟨0, 0, 0⟩, ⟨0, 0, 0⟩] : List Point).get? j) :=
  ⟨⟨by decide, by decide, by decide, by decide⟩,
   C8_repeat_expansion [9, 2] [⟨0, 0, 0⟩, ⟨0, 0, 0⟩, ⟨0, 0, 0⟩] 0 0 9 2
     (by decide) (by decide) (by decide) (by decide)⟩

/-! ### Claim C10 -/

theorem decodeAxisAux_length (d : List Nat) (sb mb : Nat)
    (wr : Point → Int → Point) (pts : List Point) (offset i : Nat)
    (x : Int) :
    ∀ pts' off, decodeAxisAux d sb mb wr pts offset i x = some (pts', off) →
      pts'.length = pts.length := by
  induction pts, offset, i, x using decodeAxisAux.induct d sb mb wr with
  | case1 pts offset i x hlt hnone =>
    intro pts' off h
    exact absurd (List.get?_eq_none.mp hnone) (by omega)
  | case2 pts offset i x hlt p hp hshort hdnone =>
    intro pts' off h
    rw [decodeAxisAux.eq_def] at h
    simp only [dif_pos hlt, hp, if_pos hshort, hdnone] at h
    cases h
  | case3 pts offset i x hlt p hp hshort b hb x1 ih =>
    intro pts' off h
    rw [decodeAxisAux.eq_def] at h
    simp only [dif_pos hlt, hp, if_pos hshort, hb] at h
    exact (ih _ _ h).trans (by simp)
  | case4 pts offset i x hlt p hp hshort hsame hu16 =>
    intro pts' off h
    rw [decodeAxisAux.eq_def] at h
    simp only [dif_pos hlt, hp, if_neg hshort, if_pos hsame, hu16] at h
    cases h
  | case5 pts offset i x hlt p hp hshort hsame v hv x1 ih =>
    intro pts' off h
    rw [decodeAxisAux.eq_def] at h
    simp only [dif_pos hlt, hp, if_neg hshort, if_pos hsame, hv] at h
    exact (ih _ _ h).trans (by simp)
  | case6 pts offset i x hlt p hp hshort hsame ih =>
    intro pts' off h
    rw [decodeAxisAux.eq_def] at h
    simp only [dif_pos hlt, hp, if_neg hshort, if_neg hsame] at h
    exact (ih _ _ h).trans (by simp)
  | case7 pts offset i x hge =>
    intro pts' off h
    rw [decodeAxisAux.eq_def] at h
    simp only [dif_neg hge] at h
    cases h
    rfl

theorem decodeAxisAux_get_lt (d : List Nat) (sb mb : Nat)
    (wr : Point → Int → Point) (pts : List Point) (offset i : Nat)
    (x : Int) :
    ∀ pts' off, decodeAxisAux d sb mb wr pts offset i x = some (pts', off) →
      ∀ j, j < i → pts'.get? j = pts.get? j := by
  induction pts, offset, i, x using decodeAxisAux.induct d sb mb wr with
  | case1 pts offset i x hlt hnone =>
    intro pts' off h
    exact absurd (List.get?_eq_none.mp hnone) (by omega)
  | case2 pts offset i x hlt p hp hshort hdnone =>
    intro pts' off h
    rw [decodeAxisAux.eq_def] at h
    simp only [dif_pos hlt, hp, if_pos hshort, hdnone] at h
    cases h
  | case3 pts offset i x hlt p hp hshort b hb x1 ih =>
    intro pts' off h j hj
    rw [decodeAxisAux.eq_def] at h
    simp only [dif_pos hlt, hp, if_pos hshort, hb] at h
    rw [ih _ _ h j (by omega), List.get?_set_ne _ _ (by omega)]
  | case4 pts offset i x hlt p hp hshort hsame hu16 =>
    intro pts' off h
    rw [decodeAxisAux.eq_def] at h
    simp only [dif_pos hlt, hp, if_neg hshort, if_pos hsame, hu16] at h
    cases h
  | case5 pts offset i x hlt p hp hshort hsame v hv x1 ih =>
    intro pts' off h j hj
    rw [decodeAxisAux.eq_def] at h
    simp only [dif_pos hlt, hp, if_neg hshort, if_pos hsame, hv] at h
    rw [ih _ _ h j (by omega), List.get?_set_ne _ _ (by omega)]
  | case6 pts offset i x hlt p hp hshort hsame ih =>
    intro pts' off h j hj
    rw [decodeAxisAux.eq_def] at h
    simp only [dif_pos hlt, hp, if_neg hshort, if_neg hsame] at h
    rw [ih _ _ h j (by omega), List.get?_set_ne _ _ (by omega)]
  | case7 pts offset i x hge =>
    intro pts' off h j hj
    rw [decodeAxisAux.eq_def] at h
    simp only [dif_neg hge] at h
    cases h
    rfl

/-- A point whose axis flags select "same as previous" (short-vector bit
clear, is-same bit set) is stored as the incoming accumulator value. -/
theorem decodeAxisAux_same_head (d : List Nat) (sb mb : Nat)
    (wr : Point → Int → Point) (pts : List Point) (offset i : Nat)
    (x : Int) (pts' : List Point) (off : Nat) (p : Point)
    (hp : pts.get? i = some p) (hs : p.Flags &&& sb = 0)
    (hm : p.Flags &&& mb ≠ 0)
    (h : decodeAxisAux d sb mb wr pts offset i x = some (pts', off)) :
    pts'.get? i = some (wr p x) := by
  have hlt : i < pts.length := by
    rcases List.get?_eq_some.mp hp with ⟨hl, _⟩
    exact hl
  rw [decodeAxisAux.eq_def] at h
  simp only [dif_pos hlt, hp, if_neg (not_not_intro hs), if_neg hm] at h
  rw [decodeAxisAux_get_lt d sb mb wr (pts.set i (wr p x)) offset (i + 1) x
    pts' off h i (by omega), List.get?_set_eq_of_lt _ hlt]

/-- C10: each invocation of `decodeCoords` starts both axis accumulators
at zero, so a point at the start of the decoded range whose flags select
"same as previous" on both axes decodes to the co-ordinate `(0, 0)` —
in particular, no delta accumulation carries over from a previous
component's invocation. -/
theorem C10_accumulators_start_at_zero (g : GlyphBuf) (d : List Nat)
    (offset np0 : Nat) (g' : GlyphBuf) (off : Nat) (p : Point)
    (hp : g.Point.get? np0 = some p)
    (hx : p.Flags &&& 2 = 0) (hxs : p.Flags &&& 16 ≠ 0)
    (hy : p.Flags &&& 4 = 0) (hys : p.Flags &&& 32 ≠ 0)
    (hdc : decodeCoords g d offset np0 = some (g', off)) :
    g'.Point.get? np0 = some { p with X := 0, Y := 0 } := by
  unfold decodeCoords at hdc
  cases hX : decodeAxisAux d 2 16 (fun p v => { p with X := v }) g.Point
      offset np0 0 with
  | none =>
    simp only [hX] at hdc
    cases hdc
  | some r1 =>
    obtain ⟨pts1, off1⟩ := r1
    simp only [hX] at hdc
    cases hY : decodeAxisAux d 4 32 (fun p v => { p with Y := v }) pts1
        off1 np0 0 with
    | none =>
      simp only [hY] at hdc
      cases hdc
    | some r2 =>
      obtain ⟨pts2, off2⟩ := r2
      simp only [hY] at hdc
      cases hdc
      have h1 : pts1.get? np0 = some ({ p with X := 0 }) :=
        decodeAxisAux_same_head d 2 16 (fun p v => { p with X := v })
          g.Point offset np0 0 pts1 off1 p hp hx hxs hX
      have h2 : pts2.get? np0 = some ({ p with X := 0, Y := 0 }) :=
        decodeAxisAux_same_head d 4 32 (fun p v => { p with Y := v })
          pts1 off1 np0 0 pts2 off ({ p with X := 0 }) h1 hy hys hY
      exact h2

/-- Witness for C10: a single point with flags `48 = 16 + 32` (both
is-same bits, neither short-vector bit) and stale co-ordinates `(5, 7)`
decodes to `(0, 0)` from an empty co-ordinate stream. -/
theorem C10_witness :
    decodeCoords ⟨⟨0, 0, 0, 0⟩, [⟨5, 7, 48⟩], [], [], [], []⟩ [] 0 0 =
      some (⟨⟨0, 0, 0, 0⟩, [⟨0, 0, 48⟩], [], [], [], []⟩, 0) ∧
    (⟨⟨0, 0, 0, 0⟩, [⟨0, 0, 48⟩], [], [], [], []⟩ : GlyphBuf).Point.get? 0 =
      some { X := 0, Y := 0, Flags := 48 } := by
  have hax : ∀ (wr : Point → Int → Point) (sb mb : Nat) (q : Point),
      q.Flags &&& sb = 0 → q.Flags &&& mb ≠ 0 →
      decodeAxisAux [] sb mb wr [q] 0 0 0 = some ([wr q 0], 0) := by
    intro wr sb mb q h1 h2
    rw [decodeAxisAux.eq_def]
    simp only [List.length_singleton, Nat.zero_lt_one, dif_pos, List.get?,
      if_neg (not_not_intro h1), if_neg h2]
    rw [decodeAxisAux.eq_def]
    simp
  have hx1 : decodeAxisAux [] 2 16 (fun p v => { p with X := v })
      [⟨5, 7, 48⟩] 0 0 0 = some ([⟨0, 7, 48⟩], 0) := by
    rw [hax _ 2 16 ⟨5, 7, 48⟩ (by decide) (by decide)]
  have hy1 : decodeAxisAux [] 4 32 (fun p v => { p with Y := v })
      [⟨0, 7, 48⟩] 0 0 0 = some ([⟨0, 0, 48⟩], 0) := by
    rw [hax _ 4 32 ⟨0, 7, 48⟩ (by decide) (by decide)]
  have hdc : decodeCoords ⟨⟨0, 0, 0, 0⟩, [⟨5, 7, 48⟩], [], [], [], []⟩ [] 0 0 =
      some (⟨⟨0, 0, 0, 0⟩, [⟨0, 0, 48⟩], [], [], [], []⟩, 0) := by
    unfold decodeCoords
    simp only [hx1, hy1]
  refine ⟨hdc, ?_⟩
  exact C10_accumulators_start_at_zero
    ⟨⟨0, 0, 0, 0⟩, [⟨5, 7, 48⟩], [], [], [], []⟩ [] 0 0
    ⟨⟨0, 0, 0, 0⟩, [⟨0, 0, 48⟩], [], [], [], []⟩ 0 ⟨5, 7, 48⟩ rfl
    (by decide) (by decide) (by decide) (by decide) hdc

/-! ### Claim C6 -/

theorem get_take_append_map_drop (l : List Point) (fn : Point → Point)
    (np0 j : Nat) (hj : np0 ≤ j) :
    (l.take np0 ++ (l.drop np0).map fn).get? j = (l.get? j).map fn := by
  rcases le_or_lt np0 l.length with hle | hlt
  · have hlen : (l.take np0).length = np0 := by
      simp [Nat.min_eq_left hle]
    rw [List.get?_append_right (by rw [hlen]; exact hj), List.get?_map,
      List.get?_drop, hlen, show np0 + (j - np0) = j from by omega]
  · have ht : l.take np0 = l := List.take_of_length_le (by omega)
    have hd : l.drop np0 = [] := List.drop_eq_nil_of_le (by omega)
    have hnone : l[j]? = none := by
      rw [← List.get?_eq_getElem?]
      exact List.get?_eq_none.mpr (by omega)
    rw [ht, hd]
    simp [hnone]

/-- C6: the scaling step applies exactly one of two policies, selected by
the rounding flag, to every point at index `j ≥ np0`, each axis handled
independently: unrounded, the final co-ordinate is `scaleFn(scale * (raw +
offset))`; grid-rounded, it is `roundedOffset + scaleFn(scale * raw)` with
`roundedOffset = (scaleFn(scale * offset) + 32) & ~63`. -/
theorem C6_scaling_policies (f : Font) (scale dx dy : Int) (rnd : Bool)
    (np0 : Nat) (pts : List Point) (j : Nat) (hj : np0 ≤ j) :
    (scalePoints f scale dx dy rnd np0 pts).get? j =
      (pts.get? j).map (fun p =>
        { p with
          X := if rnd then specScaleRounded f.scale scale dx p.X
               else specScaleUnrounded f.scale scale dx p.X,
          Y := if rnd then specScaleRounded f.scale scale dy p.Y
               else specScaleUnrounded f.scale scale dy p.Y }) := by
  cases rnd with
  | false =>
    unfold scalePoints
    simp only [Bool.false_eq_true, if_false]
    exact get_take_append_map_drop pts _ np0 j hj
  | true =>
    unfold scalePoints
    simp only [if_true]
    exact get_take_append_map_drop pts _ np0 j hj

/-- Witness for C6 at a concrete point list and both policies. -/
theorem C6_witness :
    (0 ≤ 1 ∧
      (scalePoints ⟨.short, [], [], id⟩ 2 3 4 false 0 [⟨9, 9, 1⟩, ⟨1, 2, 0⟩]).get? 1 =
        (([⟨9, 9, 1⟩, ⟨1, 2, 0⟩] : List Point).get? 1).map (fun p =>
          { p with
            X := specScaleUnrounded (⟨.short, [], [], id⟩ : Font).scale 2 3 p.X,
            Y := specScaleUnrounded (⟨.short, [], [], id⟩ : Font).scale 2 4 p.Y })) ∧
    (0 ≤ 0 ∧
      (scalePoints ⟨.short, [], [], id⟩ 2 3 4 true 0 [⟨1, 2, 0⟩]).get? 0 =
        (([⟨1, 2, 0⟩] : List Point).get? 0).map (fun p =>
          { p with
            X := specScaleRounded (⟨.short, [], [], id⟩ : Font).scale 2 3 p.X,
            Y := specScaleRounded (⟨.short, [], [], id⟩ : Font).scale 2 4 p.Y })) := by
  constructor
  · refine ⟨by omega, ?_⟩
    have := C6_scaling_policies ⟨.short, [], [], id⟩ 2 3 4 false 0
      [⟨9, 9, 1⟩, ⟨1, 2, 0⟩] 1 (by omega)
    simpa using this
  · refine ⟨by omega, ?_⟩
    have := C6_scaling_policies ⟨.short, [], [], id⟩ 2 3 4 true 0
      [⟨1, 2, 0⟩] 0 (by omega)
    simpa using this

/-! ### Claims C3 and C7 -/

/-- The shared last-component fact: whatever result `e` the recursive
`load` of a final compound component produced, `loadCompound` returns
success with the loaded buffer, restoring the saved bounds unless
`flagUseMyMetrics` (512) is set (source lines 181–190). -/
theorem loadCompound_last_component (f : Font) (scale : Int)
    (h : Option Hinter) (glyf : List Nat) (offset : Nat) (dx dy : Int)
    (m : Nat) (g g1 : GlyphBuf) (flags component : Nat) (dx1 dy1 : Int)
    (e : Option TTError)
    (hdisp : compDispatch glyf offset dx dy = .comp flags component dx1 dy1)
    (hload : load f scale component h dx1 dy1 (flags &&& 4 ≠ 0) m g =
      some (g1, e))
    (hlast : flags &&& 32 = 0) :
    loadCompound f scale h glyf offset dx dy m g =
      some (if flags &&& 512 = 0 then { g1 with B := g.B } else g1, none) := by
  rw [loadCompound.eq_def]
  split
  · next heq =>
    rw [hdisp] at heq
    cases heq
  · next heq =>
    rw [hdisp] at heq
    cases heq
  · next heq =>
    rw [hdisp] at heq
    cases heq
  · next flags' component' dx1' dy1' heq =>
    rw [hdisp] at heq
    cases heq
    rw [hload]
    simp only [if_pos hlast]

/-- C3: `loadCompound` discards the error value returned by the recursive
`load` of a component (source line 182 ignores the call's result), so the
composite returns success (`none`) for its final component regardless of
the component error `e` — which may be the recursion-cap rejection, an
unsupported-feature error from a nested compound, or a hinting error. -/
theorem C3_component_error_discarded (f : Font) (scale : Int)
    (h : Option Hinter) (glyf : List Nat) (offset : Nat) (dx dy : Int)
    (m : Nat) (g g1 : GlyphBuf) (flags component : Nat) (dx1 dy1 : Int)
    (e : Option TTError)
    (hdisp : compDispatch glyf offset dx dy = .comp flags component dx1 dy1)
    (hload : load f scale component h dx1 dy1 (flags &&& 4 ≠ 0) m g =
      some (g1, e))
    (hlast : flags &&& 32 = 0) :
    loadCompound f scale h glyf offset dx dy m g =
      some (if flags &&& 512 = 0 then { g1 with B := g.B } else g1, none) :=
  loadCompound_last_component f scale h glyf offset dx dy m g g1 flags
    component dx1 dy1 e hdisp hload hlast

/-- Witness for C3: the component's recursive load fails with the
recursion-cap rejection (remaining depth 0), yet `loadCompound` returns
success with the state the failed load left behind. -/
theorem C3_witness :
    (compDispatch [0, 2, 0, 0, 0, 0] 0 0 0 = .comp 2 0 0 0 ∧
      load zeroLocaFont 1 0 none 0 0 ((2 : Nat) &&& 4 ≠ 0) 0 emptyBuf =
        some (emptyBuf,
          some (.UnsupportedError "excessive compound glyph recursion")) ∧
      (2 : Nat) &&& 32 = 0) ∧
    loadCompound zeroLocaFont 1 none [0, 2, 0, 0, 0, 0] 0 0 0 0 emptyBuf =
      some (emptyBuf, none) := by
  have hload : load zeroLocaFont 1 0 none 0 0 ((2 : Nat) &&& 4 ≠ 0) 0 emptyBuf =
      some (emptyBuf,
        some (.UnsupportedError "excessive compound glyph recursion")) :=
    load_depth_zero zeroLocaFont 1 0 none 0 0 _ emptyBuf
  refine ⟨⟨by decide, hload, by decide⟩, ?_⟩
  have := C3_component_error_discarded zeroLocaFont 1 none [0, 2, 0, 0, 0, 0]
    0 0 0 0 emptyBuf emptyBuf 2 0 0 0
    (some (.UnsupportedError "excessive compound glyph recursion"))
    (by decide) hload (by decide)
  simpa using this

/-- C7: for a compound component record, when the "use my metrics" flag
(512) is unset the bounds are restored to the value saved immediately
before the component's load; when it is set, the bounds are exactly those
produced by loading the component. The point and contour data are those
produced by the component's load either way. -/
theorem C7_use_my_metrics_bounds (f : Font) (scale : Int)
    (h : Option Hinter) (glyf : List Nat) (offset : Nat) (dx dy : Int)
    (m : Nat) (g g1 : GlyphBuf) (flags component : Nat) (dx1 dy1 : Int)
    (e : Option TTError)
    (hdisp : compDispatch glyf offset dx dy = .comp flags component dx1 dy1)
    (hload : load f scale component h dx1 dy1 (flags &&& 4 ≠ 0) m g =
      some (g1, e))
    (hlast : flags &&& 32 = 0) :
    ∃ g2, loadCompound f scale h glyf offset dx dy m g = some (g2, none) ∧
      g2.Point = g1.Point ∧ g2.End = g1.End ∧
      (flags &&& 512 = 0 → g2.B = g.B) ∧
      (flags &&& 512 ≠ 0 → g2.B = g1.B) := by
  refine ⟨if flags &&& 512 = 0 then { g1 with B := g.B } else g1,
    loadCompound_last_component f scale h glyf offset dx dy m g g1 flags
      component dx1 dy1 e hdisp hload hlast, ?_, ?_, ?_, ?_⟩
  · split <;> rfl
  · split <;> rfl
  · intro hz
    rw [if_pos hz]
  · intro hnz
    rw [if_neg hnz]

/-- Witness for C7 with the "use my metrics" flag set (`flags = 514`). -/
theorem C7_witness :
    (compDispatch [2, 2, 0, 0, 0, 0] 0 0 0 = .comp 514 0 0 0 ∧
      load zeroLocaFont 1 0 none 0 0 ((514 : Nat) &&& 4 ≠ 0) 0 emptyBuf =
        some (emptyBuf,
          some (.UnsupportedError "excessive compound glyph recursion")) ∧
      (514 : Nat) &&& 32 = 0) ∧
    ∃ g2, loadCompound zeroLocaFont 1 none [2, 2, 0, 0, 0, 0] 0 0 0 0
        emptyBuf = some (g2, none) ∧
      g2.Point = emptyBuf.Point ∧ g2.End = emptyBuf.End ∧
      ((514 : Nat) &&& 512 = 0 → g2.B = emptyBuf.B) ∧
      ((514 : Nat) &&& 512 ≠ 0 → g2.B = emptyBuf.B) := by
  have hload : load zeroLocaFont 1 0 none 0 0 ((514 : Nat) &&& 4 ≠ 0) 0
      emptyBuf = some (emptyBuf,
        some (.UnsupportedError "excessive compound glyph recursion")) :=
    load_depth_zero zeroLocaFont 1 0 none 0 0 _ emptyBuf
  exact ⟨⟨by decide, hload, by decide⟩,
    C7_use_my_metrics_bounds zeroLocaFont 1 none [2, 2, 0, 0, 0, 0] 0 0 0 0
      emptyBuf emptyBuf 514 0 0 0
      (some (.UnsupportedError "excessive compound glyph recursion"))
      (by decide) hload (by decide)⟩

/-! ### Claim C1 -/

theorem selfRef_load_step (n : Nat) (g : GlyphBuf) :
    load selfRefFont 1 0 none 0 0 false (n + 1) g =
      loadCompound selfRefFont 1 none selfRefGlyf 10 0 0 n
        { g with B := ⟨0, 0, 0, 0⟩ } := by
  rw [load.eq_def]
  have h0 : loadDispatch selfRefFont 0 = .compound selfRefGlyf ⟨0, 0, 0, 0⟩ := by
    decide
  rw [h0]

theorem selfRef_comp_step (n : Nat) (g : GlyphBuf) :
    loadCompound selfRefFont 1 none selfRefGlyf 10 0 0 n g =
      match load selfRefFont 1 0 none 0 0 false n g with
      | none => none
      | some (g1, _) => some ({ g1 with B := g.B }, none) := by
  have hdisp : compDispatch selfRefGlyf 10 0 0 = .comp 2 0 0 0 := by decide
  rw [loadCompound.eq_def]
  split
  · next heq =>
    rw [hdisp] at heq
    cases heq
  · next heq =>
    rw [hdisp] at heq
    cases heq
  · next heq =>
    rw [hdisp] at heq
    cases heq
  · next flags' component' dx1' dy1' heq =>
    rw [hdisp] at heq
    cases heq
    simp [show ((2 : Nat) &&& 4) = 0 from by decide,
      show ((2 : Nat) &&& 32) = 0 from by decide,
      show ((2 : Nat) &&& 512) = 0 from by decide]

theorem selfRef_load_val : ∀ n : Nat,
    load selfRefFont 1 0 none 0 0 false n emptyBuf =
      some (emptyBuf,
        if n = 0 then
          some (.UnsupportedError "excessive compound glyph recursion")
        else none) := by
  intro n
  induction n with
  | zero => simpa using load_depth_zero selfRefFont 1 0 none 0 0 false emptyBuf
  | succ k ih =>
    rw [selfRef_load_step k emptyBuf,
      show ({ emptyBuf with B := ⟨0, 0, 0, 0⟩ } : GlyphBuf) = emptyBuf from rfl,
      selfRef_comp_step k emptyBuf, ih]
    simp

/-- C1 counterexample: the claim says reaching component-nesting depth 5
makes `Load` fail with an unsupported-format error. On the
self-referential compound font, whose load recurses to the cap, `Load`
instead returns success (`none` error) with an empty outline: the inner
rejection is discarded by `loadCompound`. -/
theorem selfRef_Load_succeeds :
    Load selfRefFont 1 0 none emptyBuf = some (emptyBuf, none) := by
  have h4 := selfRef_load_val 4
  unfold Load loadAndScaleB
  simp only [emptyBuf] at h4 ⊢
  rw [h4]
  simp [selfRefFont, i32mul, wrap32]

/-- C1 counterexample: loading the self-referential compound glyph reaches
the depth cap, yet the top-level `Load` returns success (`none` error)
rather than the unsupported-format error the claim demands. -/
theorem C1_counterexample :
    Load selfRefFont 1 0 none emptyBuf = some (emptyBuf, none) :=
  selfRef_Load_succeeds

theorem chain_load_step0 (n : Nat) (g : GlyphBuf) :
    load chainFont 1 0 none 0 0 false (n + 1) g =
      loadCompound chainFont 1 none (chainComp 1) 10 0 0 n
        { g with B := ⟨0, 0, 0, 0⟩ } := by
  rw [load.eq_def]
  have h0 : loadDispatch chainFont 0 = .compound (chainComp 1) ⟨0, 0, 0, 0⟩ := by
    decide
  rw [h0]

theorem chain_load_step1 (n : Nat) (g : GlyphBuf) :
    load chainFont 1 1 none 0 0 false (n + 1) g =
      loadCompound chainFont 1 none (chainComp 2) 10 0 0 n
        { g with B := ⟨0, 0, 0, 0⟩ } := by
  rw [load.eq_def]
  have h0 : loadDispatch chainFont 1 = .compound (chainComp 2) ⟨0, 0, 0, 0⟩ := by
    decide
  rw [h0]

theorem chain_load_step2 (n : Nat) (g : GlyphBuf) :
    load chainFont 1 2 none 0 0 false (n + 1) g =
      loadCompound chainFont 1 none (chainComp 3) 10 0 0 n
        { g with B := ⟨0, 0, 0, 0⟩ } := by
  rw [load.eq_def]
  have h0 : loadDispatch chainFont 2 = .compound (chainComp 3) ⟨0, 0, 0, 0⟩ := by
    decide
  rw [h0]

theorem chain_comp_step (k : Nat) (hk : k < 256) (n : Nat) (g : GlyphBuf) :
    loadCompound chainFont 1 none (chainComp k) 10 0 0 n g =
      match load chainFont 1 k none 0 0 false n g with
      | none => none
      | some (g1, _) => some ({ g1 with B := g.B }, none) := by
  have hdisp : compDispatch (chainComp k) 10 0 0 = .comp 2 k 0 0 := by
    unfold compDispatch parseComponent compoundArgs chainComp u16
    simp [List.get?, int8val, i32add, wrap32,
      show ((2 : Nat) &&& 1) = 0 from by decide,
      show ((2 : Nat) &&& 2) = 2 from by decide,
      show ((2 : Nat) &&& 200) = 0 from by decide]
  rw [loadCompound.eq_def]
  split
  · next heq =>
    rw [hdisp] at heq
    cases heq
  · next heq =>
    rw [hdisp] at heq
    cases heq
  · next heq =>
    rw [hdisp] at heq
    cases heq
  · next flags' component' dx1' dy1' heq =>
    rw [hdisp] at heq
    cases heq
    simp [show ((2 : Nat) &&& 4) = 0 from by decide,
      show ((2 : Nat) &&& 32) = 0 from by decide,
      show ((2 : Nat) &&& 512) = 0 from by decide]

theorem decodeAxisAux_single (d : List Nat) (sb mb : Nat)
    (wr : Point → Int → Point) (q : Point) (offset : Nat) (x : Int) :
    decodeAxisAux d sb mb wr [q] offset 0 x =
      if q.Flags &&& sb ≠ 0 then
        match d.get? offset with
        | none => none
        | some b =>
          some ([wr q (if q.Flags &&& mb = 0 then wrap16 (x - b)
            else wrap16 (x + b))], offset + 1)
      else if q.Flags &&& mb = 0 then
        match u16 d offset with
        | none => none
        | some v => some ([wr q (wrap16 (x + wrap16 v))], offset + 2)
      else
        some ([wr q x], offset) := by
  rw [decodeAxisAux.eq_def]
  simp only [List.length_singleton, Nat.zero_lt_one, dif_pos, List.get?]
  by_cases hs : q.Flags &&& sb = 0
  · rw [if_neg (not_not_intro hs), if_neg (not_not_intro hs)]
    by_cases hm : q.Flags &&& mb = 0
    · rw [if_pos hm, if_pos hm]
      cases hu : u16 d offset with
      | none => rfl
      | some v => simp [decodeAxisAux.eq_def]
    · rw [if_neg hm, if_neg hm]
      rw [decodeAxisAux.eq_def]
      simp
  · rw [if_pos hs, if_pos hs]
    cases hb : d.get? offset with
    | none => rfl
    | some b => simp [decodeAxisAux.eq_def]

theorem chain_load3_val (n : Nat) :
    load chainFont 1 3 none 0 0 false (n + 1) emptyBuf =
      some (⟨⟨0, 0, 10, 10⟩, [⟨5, 7, 55⟩], [], [], [], [1]⟩, none) := by
  rw [load.eq_def]
  have h0 : loadDispatch chainFont 3 = .simple chainSimple ⟨0, 0, 10, 10⟩ 1 := by
    decide
  rw [h0]
  show loadSimple chainFont 1 none chainSimple 0 0 false 1
    ⟨⟨0, 0, 10, 10⟩, [], [], [], [], []⟩ = _
  have hre : readEnds chainSimple 10 0 1 = some ([1], 12) := by
    simp [readEnds, u16, chainSimple, List.get?]
  have hil : u16 chainSimple 12 = some 0 := by decide
  have hpr : sliceRange chainSimple 14 14 = some [] := by decide
  have hfl : decodeFlags ⟨⟨0, 0, 10, 10⟩, [⟨0, 0, 0⟩], [], [], [], [1]⟩
      chainSimple 14 0 =
      some (⟨⟨0, 0, 10, 10⟩, [⟨0, 0, 55⟩], [], [], [], [1]⟩, 15) := by
    simp [decodeFlags, decodeFlagsAux, updFlags, repeatRun, chainSimple,
      List.get?, show ((55 : Nat) &&& 8) = 0 from by decide]
  have hco : decodeCoords ⟨⟨0, 0, 10, 10⟩, [⟨0, 0, 55⟩], [], [], [], [1]⟩
      chainSimple 15 0 =
      some (⟨⟨0, 0, 10, 10⟩, [⟨5, 7, 55⟩], [], [], [], [1]⟩, 17) := by
    have hX : decodeAxisAux chainSimple 2 16 (fun p v => { p with X := v })
        [⟨0, 0, 55⟩] 15 0 0 = some ([⟨5, 0, 55⟩], 16) := by
      rw [decodeAxisAux_single]
      norm_num [chainSimple, List.get?, wrap16,
        show ((55 : Nat) &&& 2) = 2 from by decide,
        show ((55 : Nat) &&& 16) = 16 from by decide]
    have hY : decodeAxisAux chainSimple 4 32 (fun p v => { p with Y := v })
        [⟨5, 0, 55⟩] 16 0 0 = some ([⟨5, 7, 55⟩], 17) := by
      rw [decodeAxisAux_single]
      norm_num [chainSimple, List.get?, wrap16,
        show ((55 : Nat) &&& 4) = 4 from by decide,
        show ((55 : Nat) &&& 32) = 32 from by decide]
    unfold decodeCoords
    simp only [hX, hY]
  unfold loadSimple
  norm_num [hre, hil, hpr, hfl, hco, scalePoints, i32mul, i32add, wrap32,
    show chainFont.scale = id from rfl, List.getLast?]

theorem chain_load2_val (n : Nat) :
    load chainFont 1 2 none 0 0 false (n + 2) emptyBuf =
      some (loadedChainBuf, none) := by
  rw [show n + 2 = (n + 1) + 1 from rfl, chain_load_step2 (n + 1) emptyBuf,
    show ({ emptyBuf with B := ⟨0, 0, 0, 0⟩ } : GlyphBuf) = emptyBuf from rfl,
    chain_comp_step 3 (by omega) (n + 1) emptyBuf, chain_load3_val n]
  rfl

theorem chain_load1_val (n : Nat) :
    load chainFont 1 1 none 0 0 false (n + 3) emptyBuf =
      some (loadedChainBuf, none) := by
  rw [show n + 3 = (n + 2) + 1 from rfl, chain_load_step1 (n + 2) emptyBuf,
    show ({ emptyBuf with B := ⟨0, 0, 0, 0⟩ } : GlyphBuf) = emptyBuf from rfl,
    chain_comp_step 2 (by omega) (n + 2) emptyBuf, chain_load2_val n]
  rfl

theorem chain_load0_val (n : Nat) :
    load chainFont 1 0 none 0 0 false (n + 4) emptyBuf =
      some (loadedChainBuf, none) := by
  rw [show n + 4 = (n + 3) + 1 from rfl, chain_load_step0 (n + 3) emptyBuf,
    show ({ emptyBuf with B := ⟨0, 0, 0, 0⟩ } : GlyphBuf) = emptyBuf from rfl,
    chain_comp_step 1 (by omega) (n + 3) emptyBuf, chain_load1_val n]
  rfl

/-- C1 as amended: a component nesting of depth exactly 4 loads
successfully; the recursive load routine does reject any invocation whose
recursion counter has reached 4 (remaining depth 0) with the
unsupported-format error; but `loadCompound` discards that error result,
so on a chain reaching depth 5 the rejection does not surface: the
top-level `Load` still returns success. -/
theorem C1_depth_cap_rejection_is_discarded :
    Load chainFont 1 0 none emptyBuf = some (loadedChainBuf, none) ∧
    (∀ (f : Font) (scale : Int) (i : Nat) (h : Option Hinter) (dx dy : Int)
      (r : Bool) (g : GlyphBuf), load f scale i h dx dy r 0 g =
        some (g, some (.UnsupportedError "excessive compound glyph recursion"))) ∧
    Load selfRefFont 1 0 none emptyBuf = some (emptyBuf, none) := by
  refine ⟨?_, load_depth_zero, selfRef_Load_succeeds⟩
  have h4 := chain_load0_val 0
  unfold Load loadAndScaleB
  simp only [emptyBuf] at h4 ⊢
  rw [h4]
  simp [loadedChainBuf, chainFont, i32mul, wrap32]

/-! ### Claim C4 -/

theorem drop_eq_cons_of_get? {α : Type} :
    ∀ (l : List α) (i : Nat) (p : α), l.get? i = some p →
      l.drop i = p :: l.drop (i + 1) := by
  intro l
  induction l with
  | nil => intro i p h; cases h
  | cons hd tl ih =>
    intro i p h
    cases i with
    | zero =>
      cases h
      rfl
    | succ j =>
      simp only [List.get?] at h
      simpa using ih j p h

theorem take_succ_set {α : Type} :
    ∀ (l : List α) (i : Nat) (a : α), i < l.length →
      (l.set i a).take (i + 1) = l.take i ++ [a] := by
  intro l
  induction l with
  | nil => intro i a h; simp at h
  | cons hd tl ih =>
    intro i a h
    cases i with
    | zero => rfl
    | succ j =>
      simp only [List.set_cons_succ, List.take_succ_cons, List.cons_append]
      rw [ih j a (by simpa using h)]

theorem drop_succ_set {α : Type} (l : List α) (i : Nat) (a : α) :
    (l.set i a).drop (i + 1) = l.drop (i + 1) := by
  rw [List.drop_set, if_pos (by omega)]

theorem take_append_drop_self {α : Type} (l : List α) (i : Nat) (z : List α)
    (hz : z.length ≤ l.length - i) : (l.take i ++ z).drop i = z := by
  rcases le_or_lt i l.length with hle | hlt
  · exact List.drop_left' (by simp; omega)
  · have hz0 : z = [] := List.eq_nil_of_length_eq_zero (by omega)
    subst hz0
    rw [List.append_nil, List.take_of_length_le (by omega),
      List.drop_eq_nil_of_le (by omega)]

theorem take_append_take_self {α : Type} (l : List α) (i : Nat) (z : List α)
    (hz : z.length ≤ l.length - i) : (l.take i ++ z).take i = l.take i := by
  rcases le_or_lt i l.length with hle | hlt
  · exact List.take_left' (by simp; omega)
  · have hz0 : z = [] := List.eq_nil_of_length_eq_zero (by omega)
    subst hz0
    rw [List.append_nil, List.take_take]
    simp

theorem specAxisDecode_length (d : List Nat) (sb mb : Nat) :
    ∀ (fls : List Nat) (offset : Nat) (x : Int) (xs : List Int) (off : Nat),
      specAxisDecode d sb mb offset x fls = some (xs, off) →
      xs.length = fls.length := by
  intro fls
  induction fls with
  | nil =>
    intro offset x xs off h
    cases h
    rfl
  | cons fl rest ih =>
    intro offset x xs off h
    unfold specAxisDecode at h
    split at h
    · cases hb : d.get? offset with
      | none =>
        rw [hb] at h
        cases h
      | some b =>
        cases hs : specAxisDecode d sb mb (offset + 1)
            (if fl &&& mb = 0 then wrap16 (x - b) else wrap16 (x + b)) rest with
        | none => simp only [hb, hs] at h; cases h
        | some r =>
          obtain ⟨xs1, off1⟩ := r
          simp only [hb, hs, Option.some.injEq, Prod.mk.injEq] at h
          obtain ⟨hxs, hoff⟩ := h
          rw [← hxs]
          simpa using ih _ _ _ _ hs
    · split at h
      · cases hv : u16 d offset with
        | none =>
          rw [hv] at h
          cases h
        | some v =>
          cases hs : specAxisDecode d sb mb (offset + 2)
              (wrap16 (x + wrap16 v)) rest with
          | none => simp only [hv, hs] at h; cases h
          | some r =>
            obtain ⟨xs1, off1⟩ := r
            simp only [hv, hs, Option.some.injEq, Prod.mk.injEq] at h
            obtain ⟨hxs, hoff⟩ := h
            rw [← hxs]
            simpa using ih _ _ _ _ hs
      · cases hs : specAxisDecode d sb mb offset x rest with
        | none => simp only [hs] at h; cases h
        | some r =>
          obtain ⟨xs1, off1⟩ := r
          simp only [hs, Option.some.injEq, Prod.mk.injEq] at h
          obtain ⟨hxs, hoff⟩ := h
          rw [← hxs]
          simpa using ih _ _ _ _ hs

theorem zipWith_map_flags (wr : Point → Int → Point)
    (hwr : ∀ p v, (wr p v).Flags = p.Flags) :
    ∀ (l : List Point) (xs : List Int), xs.length = l.length →
      (List.zipWith wr l xs).map (fun p => p.Flags) =
        l.map (fun p => p.Flags) := by
  intro l
  induction l with
  | nil => intro xs h; simp
  | cons p rest ih =>
    intro xs h
    cases xs with
    | nil => simp at h
    | cons x xs1 =>
      simp only [List.zipWith_cons_cons, List.map_cons, hwr]
      rw [ih xs1 (by simpa using h)]

theorem zipWith_XY :
    ∀ (l : List Point) (xs ys : List Int),
      List.zipWith (fun p v => { p with Y := v })
        (List.zipWith (fun p v => { p with X := v }) l xs) ys =
        List.zipWith (fun p vv => { p with X := vv.1, Y := vv.2 }) l
          (xs.zip ys) := by
  intro l
  induction l with
  | nil => intro xs ys; simp
  | cons p rest ih =>
    intro xs ys
    cases xs with
    | nil => simp
    | cons x xs1 =>
      cases ys with
      | nil => simp
      | cons y ys1 =>
        simp only [List.zipWith_cons_cons, List.zip_cons_cons]
        rw [ih xs1 ys1]

/-- The index-based axis loop of the source decoder agrees with the
flag-list pass written from the spec's words: same byte consumption, same
wrapping accumulator, and the decoded values are written over the points
at `[i, len)` in order. -/
theorem decodeAxisAux_spec (d : List Nat) (sb mb : Nat)
    (wr : Point → Int → Point) :
    ∀ (pts : List Point) (offset i : Nat) (x : Int),
    decodeAxisAux d sb mb wr pts offset i x =
      match specAxisDecode d sb mb offset x
          ((pts.drop i).map (fun p => p.Flags)) with
      | none => none
      | some (xs, off) =>
        some (pts.take i ++ List.zipWith wr (pts.drop i) xs, off) := by
  intro pts offset i x
  induction pts, offset, i, x using decodeAxisAux.induct d sb mb wr with
  | case1 pts offset i x hlt hnone =>
    exact absurd (List.get?_eq_none.mp hnone) (by omega)
  | case2 pts offset i x hlt p hp hshort hdnone =>
    rw [decodeAxisAux.eq_def, drop_eq_cons_of_get? pts i p hp]
    simp only [dif_pos hlt, hp, if_pos hshort, hdnone, List.map_cons]
    unfold specAxisDecode
    simp only [if_pos hshort, hdnone]
  | case3 pts offset i x hlt p hp hshort b hb x1 ih =>
    rw [decodeAxisAux.eq_def]
    simp only [dif_pos hlt, hp, if_pos hshort, hb]
    unfold_let x1 at ih
    simp only [dite_eq_ite] at ih
    rw [ih, drop_succ_set, drop_eq_cons_of_get? pts i p hp]
    simp only [List.map_cons]
    conv_rhs => unfold specAxisDecode
    simp only [if_pos hshort, hb]
    cases hs : specAxisDecode d sb mb (offset + 1)
        (if p.Flags &&& mb = 0 then wrap16 (x - b) else wrap16 (x + b))
        ((pts.drop (i + 1)).map (fun p => p.Flags)) with
    | none => rfl
    | some r =>
      obtain ⟨xs, off⟩ := r
      simp only [List.zipWith_cons_cons]
      rw [take_succ_set pts i _ hlt, List.append_assoc]
      rfl
  | case4 pts offset i x hlt p hp hshort hsame hu16 =>
    rw [decodeAxisAux.eq_def, drop_eq_cons_of_get? pts i p hp]
    simp only [dif_pos hlt, hp, if_neg hshort, if_pos hsame, hu16,
      List.map_cons]
    unfold specAxisDecode
    simp only [if_neg hshort, if_pos hsame, hu16]
  | case5 pts offset i x hlt p hp hshort hsame v hv x1 ih =>
    rw [decodeAxisAux.eq_def]
    simp only [dif_pos hlt, hp, if_neg hshort, if_pos hsame, hv]
    unfold_let x1 at ih
    rw [ih, drop_succ_set, drop_eq_cons_of_get? pts i p hp]
    simp only [List.map_cons]
    conv_rhs => unfold specAxisDecode
    simp only [if_neg hshort, if_pos hsame, hv]
    cases hs : specAxisDecode d sb mb (offset + 2) (wrap16 (x + wrap16 v))
        ((pts.drop (i + 1)).map (fun p => p.Flags)) with
    | none => rfl
    | some r =>
      obtain ⟨xs, off⟩ := r
      simp only [List.zipWith_cons_cons]
      rw [take_succ_set pts i _ hlt, List.append_assoc]
      rfl
  | case6 pts offset i x hlt p hp hshort hsame ih =>
    rw [decodeAxisAux.eq_def]
    simp only [dif_pos hlt, hp, if_neg hshort, if_neg hsame]
    rw [ih, drop_succ_set, drop_eq_cons_of_get? pts i p hp]
    simp only [List.map_cons]
    conv_rhs => unfold specAxisDecode
    simp only [if_neg hshort, if_neg hsame]
    cases hs : specAxisDecode d sb mb offset x
        ((pts.drop (i + 1)).map (fun p => p.Flags)) with
    | none => rfl
    | some r =>
      obtain ⟨xs, off⟩ := r
      simp only [List.zipWith_cons_cons]
      rw [take_succ_set pts i _ hlt, List.append_assoc]
      rfl
  | case7 pts offset i x hge =>
    rw [decodeAxisAux.eq_def]
    simp only [dif_neg hge]
    rw [List.drop_eq_nil_of_le (by omega), List.take_of_length_le (by omega)]
    simp [specAxisDecode]

/-- C4: `decodeCoords` decodes all X co-ordinates for the point range in
one full pass before decoding any Y co-ordinate in a second full pass
over the same flags, starting each axis accumulator at zero; per point, a
short-vector flag consumes one byte added or subtracted per the sign bit,
the is-same flag consumes no bytes and keeps the accumulator, and
otherwise a signed 16-bit big-endian delta (2 bytes) is added — all in
16-bit two's-complement wrapping arithmetic (`wrap16`), each stored
co-ordinate being the accumulator value widened to the 32-bit point
field. -/
theorem C4_two_pass_wrapping_decode (g : GlyphBuf) (d : List Nat)
    (offset np0 : Nat) :
    decodeCoords g d offset np0 =
      match specAxisDecode d 2 16 offset 0
          ((g.Point.drop np0).map (fun p => p.Flags)) with
      | none => none
      | some (xs, off1) =>
        match specAxisDecode d 4 32 off1 0
            ((g.Point.drop np0).map (fun p => p.Flags)) with
        | none => none
        | some (ys, off2) =>
          some ({ g with
            Point := g.Point.take np0 ++
              List.zipWith (fun p vv => { p with X := vv.1, Y := vv.2 })
                (g.Point.drop np0) (xs.zip ys) }, off2) := by
  unfold decodeCoords
  cases hX : decodeAxisAux d 2 16 (fun p v => { p with X := v }) g.Point
      offset np0 0 with
  | none =>
    simp only [hX]
    rw [decodeAxisAux_spec] at hX
    cases hs1 : specAxisDecode d 2 16 offset 0
        ((g.Point.drop np0).map (fun p => p.Flags)) with
    | none => rfl
    | some r1 =>
      rw [hs1] at hX
      obtain ⟨xs, off1⟩ := r1
      cases hX
  | some r1 =>
    obtain ⟨pts1, off1⟩ := r1
    simp only [hX]
    rw [decodeAxisAux_spec] at hX
    cases hs1 : specAxisDecode d 2 16 offset 0
        ((g.Point.drop np0).map (fun p => p.Flags)) with
    | none =>
      rw [hs1] at hX
      cases hX
    | some r1 =>
      obtain ⟨xs, off1x⟩ := r1
      rw [hs1] at hX
      injection hX with hX1
      injection hX1 with hpts1 hoff1
      subst hpts1
      subst hoff1
      have hxlen : xs.length = (g.Point.drop np0).length := by
        have := specAxisDecode_length d 2 16 _ _ _ _ _ hs1
        simpa using this
      have hzlen : (List.zipWith (fun p v => { p with X := v })
          (g.Point.drop np0) xs).length ≤ g.Point.length - np0 := by
        simp
      cases hY : decodeAxisAux d 4 32 (fun p v => { p with Y := v })
          (g.Point.take np0 ++ List.zipWith (fun p v => { p with X := v })
            (g.Point.drop np0) xs) off1x np0 0 with
      | none =>
        simp only [hY]
        rw [decodeAxisAux_spec, take_append_drop_self _ _ _ hzlen,
          zipWith_map_flags (fun p v => { p with X := v }) (fun p v => rfl) _ _ hxlen] at hY
        cases hs2 : specAxisDecode d 4 32 off1x 0
            ((g.Point.drop np0).map (fun p => p.Flags)) with
        | none => rfl
        | some r2 =>
          rw [hs2] at hY
          obtain ⟨ys, off2⟩ := r2
          cases hY
      | some r2 =>
        obtain ⟨pts2, off2⟩ := r2
        simp only [hY]
        rw [decodeAxisAux_spec, take_append_drop_self _ _ _ hzlen,
          zipWith_map_flags (fun p v => { p with X := v }) (fun p v => rfl) _ _ hxlen] at hY
        cases hs2 : specAxisDecode d 4 32 off1x 0
            ((g.Point.drop np0).map (fun p => p.Flags)) with
        | none =>
          rw [hs2] at hY
          cases hY
        | some r2 =>
          obtain ⟨ys, off2y⟩ := r2
          rw [hs2] at hY
          injection hY with hY1
          injection hY1 with hpts2 hoff2
          subst hpts2
          subst hoff2
          rw [take_append_take_self _ _ _ hzlen, zipWith_XY]

/-! ### Claim C5 -/

theorem decodeFlagsAux_length (d : List Nat) (pts : List Point)
    (offset i : Nat) :
    ∀ pts' off, decodeFlagsAux d pts offset i = some (pts', off) →
      pts'.length = pts.length := by
  induction pts, offset, i using decodeFlagsAux.induct d with
  | case1 pts offset i hlt hnone =>
    intro pts' off hh
    rw [decodeFlagsAux.eq_def] at hh
    simp only [dif_pos hlt, hnone] at hh
    cases hh
  | case2 pts offset i hlt c hc hupd =>
    intro pts' off hh
    rw [decodeFlagsAux.eq_def] at hh
    simp only [dif_pos hlt, hc] at hh
    split at hh
    · cases hh
    · rename_i pts1 heq
      rw [hupd] at heq
      cases heq
  | case3 pts offset i hlt c hc pts1 hupd hrep hd2 =>
    intro pts' off hh
    rw [decodeFlagsAux.eq_def] at hh
    simp only [dif_pos hlt, hc] at hh
    split at hh
    · cases hh
    · rename_i pts1' heq
      rw [hupd] at heq
      cases heq
      simp only [if_pos hrep, hd2] at hh
      cases hh
  | case4 pts offset i hlt c hc pts1 hupd hrep cnt hd2 hrr =>
    intro pts' off hh
    rw [decodeFlagsAux.eq_def] at hh
    simp only [dif_pos hlt, hc] at hh
    split at hh
    · cases hh
    · rename_i pts1' heq
      rw [hupd] at heq
      cases heq
      simp only [if_pos hrep, hd2] at hh
      split at hh
      · cases hh
      · rename_i pts2' heq2
        rw [hrr] at heq2
        cases heq2
  | case5 pts offset i hlt c hc pts1 hupd hrep cnt hd2 pts2 hrr ih =>
    intro pts' off hh
    rw [decodeFlagsAux.eq_def] at hh
    simp only [dif_pos hlt, hc] at hh
    split at hh
    · cases hh
    · rename_i pts1' heq
      rw [hupd] at heq
      cases heq
      simp only [if_pos hrep, hd2] at hh
      split at hh
      · cases hh
      · rename_i pts2' heq2
        rw [hrr] at heq2
        cases heq2
        exact ((ih pts' off hh).trans (repeatRun_length hrr)).trans
          (updFlags_length hupd)
  | case6 pts offset i hlt c hc pts1 hupd hrep ih =>
    intro pts' off hh
    rw [decodeFlagsAux.eq_def] at hh
    simp only [dif_pos hlt, hc] at hh
    split at hh
    · cases hh
    · rename_i pts1' heq
      rw [hupd] at heq
      cases heq
      simp only [if_neg hrep] at hh
      exact (ih pts' off hh).trans (updFlags_length hupd)
  | case7 pts offset i hge =>
    intro pts' off hh
    rw [decodeFlagsAux.eq_def] at hh
    simp only [dif_neg hge] at hh
    cases hh
    rfl

theorem decodeFlags_shape {g : GlyphBuf} {d : List Nat} {offset np0 : Nat}
    {g2 : GlyphBuf} {off : Nat}
    (h : decodeFlags g d offset np0 = some (g2, off)) :
    g2.Point.length = g.Point.length ∧ g2.End = g.End := by
  unfold decodeFlags at h
  cases ha : decodeFlagsAux d g.Point offset np0 with
  | none => rw [ha] at h; cases h
  | some r =>
    obtain ⟨pts, off1⟩ := r
    rw [ha] at h
    cases h
    exact ⟨decodeFlagsAux_length d g.Point offset np0 pts _ ha, rfl⟩

theorem decodeCoords_shape {g : GlyphBuf} {d : List Nat} {offset np0 : Nat}
    {g3 : GlyphBuf} {off : Nat}
    (h : decodeCoords g d offset np0 = some (g3, off)) :
    g3.Point.length = g.Point.length ∧ g3.End = g.End := by
  unfold decodeCoords at h
  cases hX : decodeAxisAux d 2 16 (fun p v => { p with X := v }) g.Point
      offset np0 0 with
  | none => rw [hX] at h; cases h
  | some r1 =>
    obtain ⟨pts1, off1⟩ := r1
    simp only [hX] at h
    cases hY : decodeAxisAux d 4 32 (fun p v => { p with Y := v }) pts1 off1
        np0 0 with
    | none => rw [hY] at h; cases h
    | some r2 =>
      obtain ⟨pts2, off2⟩ := r2
      simp only [hY] at h
      cases h
      exact ⟨(decodeAxisAux_length d 4 32 _ pts1 off1 np0 0 pts2 _ hY).trans
        (decodeAxisAux_length d 2 16 _ g.Point offset np0 0 pts1 off1 hX),
        rfl⟩

theorem scalePoints_length (f : Font) (scale dx dy : Int) (r : Bool)
    (np0 : Nat) (pts : List Point) :
    (scalePoints f scale dx dy r np0 pts).length = pts.length := by
  unfold scalePoints
  split <;> simp <;> omega

theorem EndInv_of_getLast (g : GlyphBuf) (np : Nat)
    (hlast : g.End.getLast? = some np) (hlen : g.Point.length = np) :
    EndInv g := by
  constructor
  · intro hEmp
    rw [hEmp] at hlast
    simp at hlast
  · intro _
    rw [hlen]
    exact hlast

/-- On every `some` result (success or a returned hinting error), the
simple-glyph branch leaves `End` nonempty with its last entry — the `np`
the source reads from `g.End[ne-1]` — equal to the resized point count. -/
theorem loadSimple_EndInv (f : Font) (scale : Int) (h : Option Hinter)
    (glyf : List Nat) (dx dy : Int) (r : Bool) (ne : Nat) (g g' : GlyphBuf)
    (e : Option TTError)
    (hl : loadSimple f scale h glyf dx dy r ne g = some (g', e)) :
    EndInv g' := by
  simp only [loadSimple] at hl
  split at hl
  · exact Option.noConfusion hl
  · rename_i ends offset1 hre
    split at hl
    · exact Option.noConfusion hl
    · rename_i instrLen hil
      split at hl
      · exact Option.noConfusion hl
      · rename_i program hpr
        split at hl
        · exact Option.noConfusion hl
        · rename_i np hnp
          split at hl
          · exact Option.noConfusion hl
          · rename_i g2 offset4 hdf
            split at hl
            · exact Option.noConfusion hl
            · rename_i g3 off5 hdc
              have hplen : g3.Point.length = np := by
                obtain ⟨h1, _⟩ := decodeCoords_shape hdc
                obtain ⟨h2, _⟩ := decodeFlags_shape hdf
                rw [h1, h2]
                simp
                omega
              have hEnd3 : g3.End = g.End ++ ends := by
                obtain ⟨_, h1⟩ := decodeCoords_shape hdc
                obtain ⟨_, h2⟩ := decodeFlags_shape hdf
                rw [h1, h2]
              split at hl
              · injection hl with hl1
                injection hl1 with hg' he
                subst hg'
                refine EndInv_of_getLast _ np ?_ ?_
                · show g3.End.getLast? = some np
                  rw [hEnd3]
                  exact hnp
                · show (scalePoints f scale dx dy r g.Point.length
                    g3.Point).length = np
                  rw [scalePoints_length]
                  exact hplen
              · rename_i hx hh
                split at hl
                · split at hl
                  · exact Option.noConfusion hl
                  · rename_i ifu2 htr
                    obtain ⟨hrp, hrE⟩ := hh.run_shape program _ g' e hl
                    refine EndInv_of_getLast _ np ?_ ?_
                    · rw [hrE]
                      show g3.End.getLast? = some np
                      rw [hEnd3]
                      exact hnp
                    · rw [hrp]
                      show (scalePoints f scale dx dy r g.Point.length
                        g3.Point).length = np
                      rw [scalePoints_length]
                      exact hplen
                · exact Option.noConfusion hl

/-- Both recursive loaders preserve the contour-structure invariant on
every `some` result, including results carrying a returned error: the
compound loader's buffer threading and bounds restoration never touch
`End`/`Point` shape, and the simple branch re-establishes the invariant. -/
theorem load_EndInv (f : Font) (scale : Int) (i : Nat) (h : Option Hinter)
    (dx dy : Int) (r : Bool) (n : Nat) (g : GlyphBuf) :
    ∀ g' e, load f scale i h dx dy r n g = some (g', e) →
      EndInv g → EndInv g' := by
  refine load.induct f scale
    (fun i h dx dy r n g => ∀ g' e,
      load f scale i h dx dy r n g = some (g', e) → EndInv g → EndInv g')
    (fun h glyf offset dx dy n g => ∀ g' e,
      loadCompound f scale h glyf offset dx dy n g = some (g', e) →
      EndInv g → EndInv g')
    ?_ ?_ ?_ ?_ ?_ ?_ ?_ ?_ ?_ ?_ ?_ ?_ i h dx dy r n g
  · intro i1 h1 dx1 dy1 r1 g1 g' e hl hg
    rw [load_depth_zero] at hl
    injection hl with hl1
    injection hl1 with hg' he
    subst hg'
    exact hg
  · intro i1 h1 dx1 dy1 r1 g1 k hdisp g' e hl hg
    rw [load.eq_def] at hl
    simp only [hdisp] at hl
    cases hl
  · intro i1 h1 dx1 dy1 r1 g1 k hdisp g' e hl hg
    rw [load.eq_def] at hl
    simp only [hdisp] at hl
    injection hl with hl1
    injection hl1 with hg' he
    subst hg'
    exact hg
  · intro i1 h1 dx1 dy1 r1 g1 k a bb hdisp ih g' e hl hg
    rw [load.eq_def] at hl
    simp only [hdisp] at hl
    exact ih g' e hl hg
  · intro i1 h1 dx1 dy1 r1 g1 k bb hdisp g' e hl hg
    rw [load.eq_def] at hl
    simp only [hdisp] at hl
    injection hl with hl1
    injection hl1 with hg' he
    subst hg'
    exact hg
  · intro i1 h1 dx1 dy1 r1 g1 k a bb ne hdisp g' e hl hg
    rw [load.eq_def] at hl
    simp only [hdisp] at hl
    exact loadSimple_EndInv f scale h1 a dx1 dy1 r1 ne _ g' e hl
  · intro h1 glyf1 off1 dx1 dy1 n1 g1 hdisp g' e hl hg
    rw [loadCompound.eq_def] at hl
    split at hl
    · cases hl
    · rename_i heq
      rw [hdisp] at heq
      cases heq
    · rename_i heq
      rw [hdisp] at heq
      cases heq
    · rename_i flags' comp' cdx' cdy' heq
      rw [hdisp] at heq
      cases heq
  · intro h1 glyf1 off1 dx1 dy1 n1 g1 hdisp g' e hl hg
    rw [loadCompound.eq_def] at hl
    split at hl
    · cases hl
    · injection hl with hl1
      injection hl1 with hg' he
      subst hg'
      exact hg
    · rename_i heq
      rw [hdisp] at heq
      cases heq
    · rename_i flags' comp' cdx' cdy' heq
      rw [hdisp] at heq
      cases heq
  · intro h1 glyf1 off1 dx1 dy1 n1 g1 hdisp g' e hl hg
    rw [loadCompound.eq_def] at hl
    split at hl
    · cases hl
    · rename_i heq
      rw [hdisp] at heq
      cases heq
    · injection hl with hl1
      injection hl1 with hg' he
      subst hg'
      exact hg
    · rename_i flags' comp' cdx' cdy' heq
      rw [hdisp] at heq
      cases heq
  · intro h1 glyf1 off1 dx1 dy1 n1 g1 flags comp cdx cdy hdisp hload ih
      g' e hl hg
    rw [loadCompound.eq_def] at hl
    split at hl
    · cases hl
    · rename_i heq
      rw [hdisp] at heq
      cases heq
    · rename_i heq
      rw [hdisp] at heq
      cases heq
    · rename_i flags' comp' cdx' cdy' heq
      rw [hdisp] at heq
      cases heq
      simp only [hload] at hl
      cases hl
  · intro h1 glyf1 off1 dx1 dy1 n1 gg flags comp cdx cdy hdisp g1 de hload
      hlast ih g' e hl hg
    rw [loadCompound.eq_def] at hl
    split at hl
    · cases hl
    · rename_i heq
      rw [hdisp] at heq
      cases heq
    · rename_i heq
      rw [hdisp] at heq
      cases heq
    · rename_i flags' comp' cdx' cdy' heq
      rw [hdisp] at heq
      cases heq
      simp only [hload, if_pos hlast] at hl
      injection hl with hl1
      injection hl1 with hg' he
      subst hg'
      have hg1 : EndInv g1 := ih g1 de hload hg
      by_cases h512 : flags &&& 512 = 0
      · rw [if_pos h512]
        exact hg1
      · rw [if_neg h512]
        exact hg1
  · intro h1 glyf1 off1 dx1 dy1 n1 gg flags comp cdx cdy hdisp b0 g1 de
      hload g2 hmore ih1 ih2 g' e hl hg
    rw [loadCompound.eq_def] at hl
    split at hl
    · cases hl
    · rename_i heq
      rw [hdisp] at heq
      cases heq
    · rename_i heq
      rw [hdisp] at heq
      cases heq
    · rename_i flags' comp' cdx' cdy' heq
      rw [hdisp] at heq
      cases heq
      simp only [hload, if_neg hmore] at hl
      have hg1 : EndInv g1 := ih1 g1 de hload hg
      have hg2 : EndInv (if flags &&& 512 = 0 then { g1 with B := gg.B }
          else g1) := by
        by_cases h512 : flags &&& 512 = 0
        · rw [if_pos h512]
          exact hg1
        · rw [if_neg h512]
          exact hg1
      exact ih2 g' e hl hg2

theorem loadAndScaleB_EndInv (f : Font) (scale : Int) (i : Nat)
    (h : Option Hinter) (g g' : GlyphBuf) (e : Option TTError)
    (hl : loadAndScaleB f scale i h g = some (g', e)) (hg : EndInv g) :
    EndInv g' := by
  unfold loadAndScaleB at hl
  split at hl
  · cases hl
  · rename_i g2 e2 hld
    injection hl with hl1
    injection hl1 with hg' he
    subst hg'
    exact load_EndInv f scale i h 0 0 false 4 g g2 (some e2) hld hg
  · rename_i g2 hld
    injection hl with hl1
    injection hl1 with hg' he
    subst hg'
    exact load_EndInv f scale i h 0 0 false 4 g g2 none hld hg

/-- C5 (amended): after every successful `Load`, the buffer satisfies the
contour-structure invariant that actually survives on all inputs the
loader accepts: when `End` is empty the point list is empty, and when
`End` is nonempty its last entry equals `len(Point)`. The claim's stronger
demands — strict increase of `End` and an exact no-overlap partition of
`Point` — fail on malformed input that `Load` accepts (see the
counterexample with two equal contour end indices). -/
theorem C5_end_invariant_after_load (f : Font) (scale : Int) (i : Nat)
    (h : Option Hinter) (g g' : GlyphBuf)
    (hl : Load f scale i h g = some (g', none)) :
    EndInv g' := by
  simp only [Load] at hl
  split at hl
  · exact loadAndScaleB_EndInv f scale i _ _ g' none hl
      ⟨fun _ => rfl, fun hne => absurd rfl hne⟩
  · rename_i hh
    split at hl
    · cases hl
    · rename_i g1 e1 hi
      injection hl with hl1
      injection hl1 with hg' he
      cases he
    · rename_i g1 hi
      obtain ⟨hP, hE⟩ := hh.init_shape f scale _ g1 none hi
      refine loadAndScaleB_EndInv f scale i _ g1 g' none hl ?_
      constructor
      · intro _
        rw [hP]
      · intro hne
        rw [hE] at hne
        exact absurd rfl hne

theorem twinEnds_load_step (n : Nat) (g : GlyphBuf) :
    load twinEndsFont 1 0 none 0 0 false (n + 1) g =
      loadSimple twinEndsFont 1 none twinEndsGlyf 0 0 false 2
        { g with B := ⟨0, 0, 0, 0⟩ } := by
  rw [load.eq_def]
  have h0 : loadDispatch twinEndsFont 0 = .simple twinEndsGlyf ⟨0, 0, 0, 0⟩ 2 := by
    decide
  rw [h0]

theorem twinEnds_loadSimple_val :
    loadSimple twinEndsFont 1 none twinEndsGlyf 0 0 false 2 emptyBuf =
      some (twinBuf, none) := by
  have hre : readEnds twinEndsGlyf 10 0 2 = some ([4, 4], 14) := by
    simp [readEnds, u16, twinEndsGlyf, List.get?]
  have hil : u16 twinEndsGlyf 14 = some 0 := by decide
  have hpr : sliceRange twinEndsGlyf 16 16 = some [] := by decide
  have hfl : decodeFlags ⟨⟨0, 0, 0, 0⟩,
      [⟨0, 0, 0⟩, ⟨0, 0, 0⟩, ⟨0, 0, 0⟩, ⟨0, 0, 0⟩], [], [], [], [4, 4]⟩
      twinEndsGlyf 16 0 =
      some (⟨⟨0, 0, 0, 0⟩,
        [⟨0, 0, 57⟩, ⟨0, 0, 57⟩, ⟨0, 0, 57⟩, ⟨0, 0, 57⟩], [], [], [],
        [4, 4]⟩, 18) := by
    simp [decodeFlags, decodeFlagsAux, updFlags, repeatRun, twinEndsGlyf,
      List.get?, show ((57 : Nat) &&& 8) = 8 from by decide]
  have hco : decodeCoords ⟨⟨0, 0, 0, 0⟩,
      [⟨0, 0, 57⟩, ⟨0, 0, 57⟩, ⟨0, 0, 57⟩, ⟨0, 0, 57⟩], [], [], [],
      [4, 4]⟩ twinEndsGlyf 18 0 =
      some (⟨⟨0, 0, 0, 0⟩,
        [⟨0, 0, 57⟩, ⟨0, 0, 57⟩, ⟨0, 0, 57⟩, ⟨0, 0, 57⟩], [], [], [],
        [4, 4]⟩, 18) := by
    have hX : decodeAxisAux twinEndsGlyf 2 16 (fun p v => { p with X := v })
        [⟨0, 0, 57⟩, ⟨0, 0, 57⟩, ⟨0, 0, 57⟩, ⟨0, 0, 57⟩] 18 0 0 =
        some ([⟨0, 0, 57⟩, ⟨0, 0, 57⟩, ⟨0, 0, 57⟩, ⟨0, 0, 57⟩], 18) := by
      rw [decodeAxisAux_spec]
      rw [show specAxisDecode twinEndsGlyf 2 16 18 0
        ((([⟨0, 0, 57⟩, ⟨0, 0, 57⟩, ⟨0, 0, 57⟩,
          ⟨0, 0, 57⟩] : List Point).drop 0).map (fun p => p.Flags)) =
        some ([0, 0, 0, 0], 18) from by decide]
      rfl
    have hY : decodeAxisAux twinEndsGlyf 4 32 (fun p v => { p with Y := v })
        [⟨0, 0, 57⟩, ⟨0, 0, 57⟩, ⟨0, 0, 57⟩, ⟨0, 0, 57⟩] 18 0 0 =
        some ([⟨0, 0, 57⟩, ⟨0, 0, 57⟩, ⟨0, 0, 57⟩, ⟨0, 0, 57⟩], 18) := by
      rw [decodeAxisAux_spec]
      rw [show specAxisDecode twinEndsGlyf 4 32 18 0
        ((([⟨0, 0, 57⟩, ⟨0, 0, 57⟩, ⟨0, 0, 57⟩,
          ⟨0, 0, 57⟩] : List Point).drop 0).map (fun p => p.Flags)) =
        some ([0, 0, 0, 0], 18) from by decide]
      rfl
    unfold decodeCoords
    simp only [hX, hY]
  unfold loadSimple
  norm_num [hre, hil, hpr, hfl, hco, scalePoints, i32mul, i32add, wrap32,
    twinBuf, emptyBuf, List.replicate,
    show twinEndsFont.scale = id from rfl, List.getLast?]

theorem twinEnds_load_val (n : Nat) :
    load twinEndsFont 1 0 none 0 0 false (n + 1) emptyBuf =
      some (twinBuf, none) := by
  rw [twinEnds_load_step n emptyBuf,
    show ({ emptyBuf with B := ⟨0, 0, 0, 0⟩ } : GlyphBuf) = emptyBuf from rfl]
  exact twinEnds_loadSimple_val

theorem twinEnds_Load_val :
    Load twinEndsFont 1 0 none emptyBuf = some (twinBuf, none) := by
  have h4 := twinEnds_load_val 3
  unfold Load loadAndScaleB
  simp only [emptyBuf] at h4 ⊢
  rw [h4]
  simp [twinBuf, twinEndsFont, i32mul, wrap32]

/-- C5 counterexample: `Load` accepts the twin-ends glyph — two stored
contour end indices both decoding to 4 — returning success with
`End = [4, 4]`, which is not strictly increasing (and makes the second
contour slice `Point[4:4]` empty rather than a partition cell). -/
theorem C5_counterexample :
    Load twinEndsFont 1 0 none emptyBuf = some (twinBuf, none) ∧
    ¬ strictlyIncreasing twinBuf.End :=
  ⟨twinEnds_Load_val, by simp [strictlyIncreasing, twinBuf]⟩

/-- Witness for C5 at a concrete input: the twin-ends load succeeds and
its result satisfies the amended invariant. -/
theorem C5_witness :
    Load twinEndsFont 1 0 none emptyBuf = some (twinBuf, none) ∧
    EndInv twinBuf :=
  ⟨twinEnds_Load_val,
   C5_end_invariant_after_load twinEndsFont 1 0 none emptyBuf twinBuf
     twinEnds_Load_val⟩

end truetype
